import Mathlib

/-! # gitfusefs: parsers and path resolution

A shallow embedding of `gitfusefs.go` (the batch-listing parser `parserevlist`,
the commit header parser `parsecommittree`, the tree-listing parser
`parsetreeobjs`, the path resolver `gitfs.treelisting`, and the filesystem
projection `gitfs.rootlisting`, `gitfs.nodefor`, `dir.Lookup` and
`dir.ReadDirAll`) together with theorems about them.

Conventions of the embedding

* A Go `byte` is a natural number (its value, below 256); a Go `string` and the
  visible part of a Go `[]byte` are both lists of bytes.  No definition below
  looks at a byte other than by comparing it with a constant, so every theorem
  stated for all lists of naturals holds in particular for all byte strings.
* Go's `int` and `int64` are 64 bit integers, modelled by `Int`; the only
  places where the width matters are `strconv.ParseInt`/`strconv.Atoi`, whose
  range checks are modelled explicitly.
* A Go call returns a value, returns an error, or panics at run time
  (`Outcome`).  `parserevlist` is the only function of the program that slices
  with a computed bound, and the only one that can panic.
* The two `for len(data) > 0` loops are modelled with a bound on the number of
  iterations; `len(data) + 1` always suffices, as every iteration consumes at
  least one byte (`parserevlistLoop_isSome`, `parsetreeobjsLoop_isSome`).
* A pair `(value, err)` returned by a Go function with `err != nil` is modelled
  by `error e`: at every such return of this program the value is the zero
  value (`nil` or `""`), so nothing is lost.
-/

set_option maxRecDepth 100000

namespace GitFuseFS

/-! ## Bytes and strings -/

abbrev Byte := Nat

abbrev GoString := List Byte

/-- The byte `'\n'`. -/
def LF : Byte := 10

/-- The byte `' '`. -/
def SP : Byte := 32

/-- The byte `'\t'`. -/
def TAB : Byte := 9

/-- The byte `'\x00'`. -/
def NUL : Byte := 0

/-- The byte `'/'`. -/
def SLASH : Byte := 47

/-- The string `"commit"` (the constant `gitcommit`). -/
def gitcommit : GoString := [99, 111, 109, 109, 105, 116]

/-- The string `"tree"` (the constant `gittree`). -/
def gittree : GoString := [116, 114, 101, 101]

/-- The string `"blob"` (the constant `gitblob`). -/
def gitblob : GoString := [98, 108, 111, 98]

/-! ## The Go standard library functions the program calls -/

/-- Go `bytes.Index(s, sep)`: the index of the first occurrence of `sep` in
`s`, `none` for Go's `-1`. -/
def Index (sep : List Byte) : List Byte → Option Nat
  | [] => if sep = [] then some 0 else none
  | b :: s => if sep.isPrefixOf (b :: s) then some 0 else (Index sep s).map (· + 1)

/-- Go `bytes.Cut(s, sep)`: `(before, after, found)` around the first occurrence
of `sep`; `(s, nil, false)` when `sep` does not occur. -/
def Cut (s sep : List Byte) : List Byte × List Byte × Bool :=
  match Index sep s with
  | some i => (s.take i, s.drop (i + sep.length), true)
  | none => (s, [], false)

/-- Go `strings.Split(s, sep)` for a separator `sep` of one byte (the program
only splits on `" "`, `"\n"` and `"/"`): all the substrings between the
occurrences of `sep`, hence always at least one. -/
def Split (sep : Byte) : GoString → List GoString
  | [] => [[]]
  | b :: s =>
    if b = sep then [] :: Split sep s
    else
      match Split sep s with
      | [] => [[b]]
      | p :: ps => (b :: p) :: ps

/-- The two error kinds of `strconv`: `invalid` is `strconv.ErrSyntax` and
`outOfRange` is `strconv.ErrRange`. -/
inductive NumErr
  | invalid
  | outOfRange
deriving DecidableEq, Repr

/-- The largest `uint64`. -/
def maxUint64 : Nat := 2 ^ 64 - 1

/-- Go `lower(c)` of `strconv`: `c | ('x' - 'X')`. -/
def lower (c : Byte) : Byte := c ||| 32

/-- The digit value `strconv.ParseUint` gives to a byte: `'0'..'9'` count as
0..9 and letters as 10..35; every other byte is a syntax error (`none`). -/
def digitVal (c : Byte) : Option Nat :=
  if 48 ≤ c ∧ c ≤ 57 then some (c - 48)
  else if 97 ≤ lower c ∧ lower c ≤ 122 then some (lower c - 97 + 10)
  else none

/-- The loop of Go `strconv.ParseUint(s, base, 64)` for an explicit base
(2..36, so no prefix and no underscore is accepted), with accumulator `n`.
A syntax error returns 0, a range error returns the largest value at once,
without looking at the remaining bytes. -/
def parseUintLoop (base : Nat) : List Byte → Nat → Nat × Option NumErr
  | [], n => (n, none)
  | c :: s, n =>
    match digitVal c with
    | none => (0, some .invalid)
    | some d =>
      if base ≤ d then (0, some .invalid)
      else if maxUint64 / base + 1 ≤ n then (maxUint64, some .outOfRange)
      else if maxUint64 < n * base + d then (maxUint64, some .outOfRange)
      else parseUintLoop base s (n * base + d)

/-- Go `strconv.ParseUint(s, base, 64)` for an explicit base. -/
def ParseUint (s : GoString) (base : Nat) : Nat × Option NumErr :=
  if s = [] then (0, some .invalid) else parseUintLoop base s 0

/-- Go `strconv.ParseInt(s, base, 64)` for an explicit base: an optional sign,
then `ParseUint`; the value returned with an error is 0 for a syntax error and
the nearest bound for a range error. -/
def ParseInt (s : GoString) (base : Nat) : Int × Option NumErr :=
  match s with
  | [] => (0, some .invalid)
  | c :: t =>
    let neg : Bool := c = 45
    let digits : GoString := if c = 43 ∨ c = 45 then t else s
    match ParseUint digits base with
    | (_, some .invalid) => (0, some .invalid)
    | (un, _) =>
      if neg = false ∧ 2 ^ 63 ≤ un then (2 ^ 63 - 1, some .outOfRange)
      else if neg = true ∧ 2 ^ 63 < un then (-(2 ^ 63), some .outOfRange)
      else (if neg then -(un : Int) else (un : Int), none)

/-- Go `strconv.Atoi(s)`, which is `ParseInt(s, 10, 0)` converted to `int`
(64 bits wide). -/
def Atoi (s : GoString) : Int × Option NumErr := ParseInt s 10

/-! ## Errors and outcomes -/

/-- The messages `perr` that `parserevlist` formats; each is a non-empty
string, so `perr != ""` is `perr.isSome`. -/
inductive RevListMsg
  | numberOfParts (n : Nat)
  | invalidIDFormat (len : Nat)
  | invalidObjectType (t : GoString)
  | invalidSize (s : GoString)
  | invalidSizeRest (s : GoString) (restLen : Nat)
  | couldntFindTree
deriving DecidableEq, Repr

/-- The error values of the program, one constructor for each place that
creates one. -/
inductive GoError
  /-- Error "no header separator in commit?". -/
  | noHeaderSeparator
  /-- Error "no tree in commit?". -/
  | noTreeInCommit
  /-- Error "Invalid rev-list line: %v (err: %s)". -/
  | invalidRevListLine (cline : List Byte) (msg : RevListMsg)
  /-- Error "No tab in infoline". -/
  | noTabInInfoline
  /-- Error "invalid length (%d)". -/
  | invalidLength (n : Nat)
  /-- The error of `strconv.ParseInt`. -/
  | parseInt (s : GoString) (e : NumErr)
  /-- Error "invalid type (%v)". -/
  | invalidType (kind : GoString)
  /-- Error "invalid SHA (%v)". -/
  | invalidSHA (sha : GoString)
  /-- Error "No NUL delimiting name". -/
  | noNULDelimitingName
  /-- Error "Missing subtree (%s) in %v". -/
  | missingSubtree (part path : GoString)
  /-- Error "Missing tree (%s)". -/
  | missingTree (tree : GoString)
  /-- A failure of the `git` child process (`cmd.Output()`), with its exit code. -/
  | exec (code : Nat)
  /-- The errno `syscall.ENOENT`. -/
  | ENOENT
deriving DecidableEq, Repr

deriving instance DecidableEq for Except

/-- What a call can do: return a value, return an error, or panic at run time. -/
inductive Outcome (α : Type)
  | ok (a : α)
  | error (e : GoError)
  | panic
deriving DecidableEq, Repr

/-! ## Data model -/

/-- The struct `gitobj`. -/
structure gitobj where
  kind : GoString
  id : GoString
  tree : GoString
  mode : Int
  data : List Byte
deriving DecidableEq, Repr

/-- A Go `[]byte`: the `len` visible bytes and the bytes of the backing array
between `len` and `cap`, which a slice expression `s[:hi]` can reach. -/
structure Slice where
  elems : List Byte
  spare : List Byte
deriving DecidableEq, Repr

/-- The slice expression `rest[:hi]` on a slice with visible bytes `rest` and
spare capacity `spare`: Go panics unless `0 ≤ hi ≤ cap(rest)`. -/
def sliceTo (rest spare : List Byte) (hi : Int) : Option (List Byte) :=
  if 0 ≤ hi ∧ hi ≤ ((rest.length + spare.length : Nat) : Int) then
    some ((rest ++ spare).take hi.toNat)
  else none

/-- The slice expression `rest[lo:]`: Go panics unless `0 ≤ lo ≤ len(rest)`. -/
def sliceFrom (rest : List Byte) (lo : Int) : Option (List Byte) :=
  if 0 ≤ lo ∧ lo ≤ (rest.length : Int) then some (rest.drop lo.toNat) else none

/-! ## The commit header parser -/

/-- The loop of `parsecommittree` over the header lines. -/
def parsecommittreeLines : List GoString → Except GoError GoString
  | [] => .error .noTreeInCommit
  | l :: ls =>
    match Split SP l with
    | [key, value] => if key = gittree then .ok value else parsecommittreeLines ls
    | _ => parsecommittreeLines ls

/-- The function `parsecommittree`. -/
def parsecommittree (data : List Byte) : Except GoError GoString :=
  match Cut data [LF, LF] with
  | (_, _, false) => .error .noHeaderSeparator
  | (header, _, true) => parsecommittreeLines (Split LF header)

/-! ## The batch listing parser -/

/-- The first `switch` of the loop body of `parserevlist`. -/
def headerError (parts : List GoString) : Option RevListMsg :=
  if parts.length ≠ 3 then some (.numberOfParts parts.length)
  else if (parts.getD 0 []).length ≠ 40 then some (.invalidIDFormat (parts.getD 0 []).length)
  else if parts.getD 1 [] ≠ gitcommit then some (.invalidObjectType (parts.getD 1 []))
  else none

/-- The loop of `parserevlist`; `fuel` bounds the number of iterations and
`none` means that it ran out.  `spare` is the spare capacity of `data`, which
every `rest` shares. -/
def parserevlistLoop (spare : List Byte) :
    Nat → List Byte → List gitobj → Option (Outcome (List gitobj))
  | 0, _, _ => none
  | fuel + 1, data, objs =>
    if data.length = 0 then some (.ok objs)
    else
      match Cut data [LF] with
      | (cline, rest, found) =>
        if found = false ∨ cline.length = 0 then some (.ok objs)
        else
          let parts := Split SP cline
          match headerError parts with
          | some msg => some (.error (.invalidRevListLine cline msg))
          | none =>
            -- size, err := strconv.Atoi(parts[2])
            let size := (Atoi (parts.getD 2 [])).1
            let err := (Atoi (parts.getD 2 [])).2
            -- if err != nil: perr = "invalid size (…)"
            let perr1 : Option RevListMsg :=
              if err.isSome then some (.invalidSize (parts.getD 2 [])) else none
            -- if len(rest) < size: perr = "invalid size (…; |rest|=…)"
            let perr2 : Option RevListMsg :=
              if (rest.length : Int) < size then
                some (.invalidSizeRest (parts.getD 2 []) rest.length)
              else perr1
            -- tree, err := parsecommittree(rest[:size]), evaluated whatever perr is
            match sliceTo rest spare size with
            | none => some .panic
            | some payload =>
              let res := parsecommittree payload
              -- if err != nil: perr = "couldn't find tree (…)"
              let perr3 : Option RevListMsg :=
                match res with
                | .error _ => some .couldntFindTree
                | .ok _ => perr2
              -- if perr != "": return nil, mkerr(perr)
              match perr3 with
              | some msg => some (.error (.invalidRevListLine cline msg))
              | none =>
                let tree : GoString :=
                  match res with
                  | .ok t => t
                  | .error _ => []
                let obj : gitobj :=
                  { kind := gitcommit, id := parts.getD 0 [], tree := tree, mode := 0, data := [] }
                -- data = rest[size+1:]
                match sliceFrom rest (size + 1) with
                | none => some .panic
                | some data1 => parserevlistLoop spare fuel data1 (objs ++ [obj])

/-- The function `parserevlist`.  Every iteration of its loop shortens `data`,
so `len(data) + 1` iterations always suffice (`parserevlistLoop_isSome`). -/
def parserevlist (data : Slice) : Outcome (List gitobj) :=
  match parserevlistLoop data.spare (data.elems.length + 1) data.elems [] with
  | some r => r
  | none => .panic

/-! ## The tree listing parser -/

/-- The loop of `parsetreeobjs`; `fuel` bounds the number of iterations and
`none` means that it ran out. -/
def parsetreeobjsLoop : Nat → List Byte → List gitobj → Option (Outcome (List gitobj))
  | 0, _, _ => none
  | fuel + 1, data, objs =>
    if data.length = 0 then some (.ok objs)
    else
      match Cut data [TAB] with
      | (_, _, false) => some (.error .noTabInInfoline)
      | (info, rest, true) =>
        let parts := Split SP info
        if parts.length ≠ 3 then some (.error (.invalidLength parts.length))
        else
          match ParseInt (parts.getD 0 []) 8 with
          | (_, some e) => some (.error (.parseInt (parts.getD 0 []) e))
          | (mode, none) =>
            let kind := parts.getD 1 []
            if kind ≠ gitblob ∧ kind ≠ gittree then some (.error (.invalidType kind))
            else
              let sha := parts.getD 2 []
              if sha.length ≠ 40 then some (.error (.invalidSHA sha))
              else
                match Cut rest [NUL] with
                | (_, _, false) => some (.error .noNULDelimitingName)
                | (name, rest1, true) =>
                  let obj : gitobj :=
                    { kind := kind, id := sha, tree := [], mode := mode, data := name }
                  parsetreeobjsLoop fuel rest1 (objs ++ [obj])

/-- The function `parsetreeobjs`.  Every iteration of its loop shortens `data`,
so `len(data) + 1` iterations always suffice (`parsetreeobjsLoop_isSome`); the
function has no slice expression and never panics (`parsetreeobjs_ne_panic`). -/
def parsetreeobjs (data : List Byte) : Outcome (List gitobj) :=
  match parsetreeobjsLoop (data.length + 1) data [] with
  | some r => r
  | none => .panic

/-! ## The backend and the path resolver -/

/-- The struct `gitfs`, known by what its method `gitstdin(stdin, args...)`
returns: the output of `git args...` run on `GIT_DIR = gitdir` with standard
input `stdin` (`none` for `nil`), or the failure of the child process. -/
structure gitfs where
  gitstdin : Option (List Byte) → List GoString → Except Nat Slice

/-- The method `gitfs.git`. -/
def gitfs.git (g : gitfs) (args : List GoString) : Except Nat Slice :=
  g.gitstdin none args

/-- The string `"ls-tree"`. -/
def lsTreeArg : GoString := [108, 115, 45, 116, 114, 101, 101]

/-- The string `"-z"`. -/
def zArg : GoString := [45, 122]

/-- The method `gitfs.treeobjs`. -/
def gitfs.treeobjs (g : gitfs) (tree : GoString) : Outcome (List gitobj) :=
  match g.git [lsTreeArg, zArg, tree] with
  | .error code => .error (.exec code)
  | .ok data => parsetreeobjs data.elems

/-- The values of `fuse.DirentType` that the program uses. -/
inductive DirentType
  | DT_File
  | DT_Link
  | DT_Dir
deriving DecidableEq, Repr

/-- The fields of `fuse.Dirent` that the program sets (`Typ` is the field
`Type`). -/
structure Dirent where
  Name : GoString
  Typ : DirentType
deriving DecidableEq, Repr

/-- The inner loop of `treelisting` (`for _, o := range objs`): the id of the
first entry of kind `"tree"` whose name is `part`. -/
def findSubtree (part : GoString) : List gitobj → Option GoString
  | [] => none
  | o :: objs =>
    if o.kind ≠ gittree then findSubtree part objs
    else if o.data = part then some o.id
    else findSubtree part objs

/-- The loop labelled `part:` of `treelisting`, on its state `(parts,
actualtree)`; it returns the final `actualtree`.  `path` only occurs in the
error message. -/
def treelistingLoop (g : gitfs) (path : GoString) : List GoString → GoString → Outcome GoString
  | [], actualtree => .ok actualtree
  | p :: parts, actualtree =>
    if p = [] then treelistingLoop g path parts actualtree
    else
      match g.treeobjs actualtree with
      | .error e => .error e
      | .panic => .panic
      | .ok objs =>
        match findSubtree p objs with
        | some id => treelistingLoop g path parts id
        | none => .error (.missingSubtree p path)

/-- The `switch o.mode` of `treelisting`. -/
def direntType (mode : Int) : DirentType :=
  if mode = 0o100644 ∨ mode = 0o100755 then .DT_File
  else if mode = 0o120000 then .DT_Link
  else if mode = 0o040000 then .DT_Dir
  else .DT_File

/-- The method `gitfs.treelisting` with receiver `g`; its last part lists the
tree through the package variable `gfs`, which `main` sets to the value that it
also serves, so that at run time `gfs = g`. -/
def gitfs.treelisting (gfs g : gitfs) (tree path : GoString) : Outcome (List Dirent) :=
  match treelistingLoop g path (Split SLASH path) tree with
  | .error e => .error e
  | .panic => .panic
  | .ok actualtree =>
    match gfs.treeobjs actualtree with
    | .error _ => .error (.missingTree actualtree)
    | .panic => .panic
    | .ok objs => .ok (objs.map fun o => { Name := o.data, Typ := direntType o.mode })

/-! ## The filesystem projection -/

/-- The struct `dir`. -/
structure dir where
  tree : GoString
  path : GoString
deriving DecidableEq, Repr

/-- The struct `file`; `size` is a `uint64`. -/
structure file where
  name : GoString
  id : GoString
  size : Nat
  mode : Int
  data : List Byte
deriving DecidableEq, Repr

/-- An `fs.Node` of the program: a `dir` or a `file` (by value or by pointer,
which the model does not tell apart). -/
inductive Node
  | dir (d : dir)
  | file (f : file)
deriving DecidableEq, Repr

/-- The method `gitfs.Root`, which returns `dir{}` and no error. -/
def gitfs.Root (_g : gitfs) : dir := { tree := [], path := [] }

/-- The string `"rev-list"`. -/
def revListArg : GoString := [114, 101, 118, 45, 108, 105, 115, 116]

/-- The string `"--all"`. -/
def allArg : GoString := [45, 45, 97, 108, 108]

/-- The string `"cat-file"`. -/
def catFileArg : GoString := [99, 97, 116, 45, 102, 105, 108, 101]

/-- The string `"--batch"`. -/
def batchArg : GoString := [45, 45, 98, 97, 116, 99, 104]

/-- The string `"-s"`. -/
def sArg : GoString := [45, 115]

/-- The method `gitfs.revlistall`.  The output `revlist` of `git rev-list --all`
comes from `cmd.Output()` and is not `nil`, so it is attached as standard input
of `git cat-file --batch`. -/
def gitfs.revlistall (g : gitfs) : Outcome (List gitobj) :=
  match g.git [revListArg, allArg] with
  | .error code => .error (.exec code)
  | .ok revlist =>
    match g.gitstdin (some revlist.elems) [catFileArg, batchArg] with
    | .error code => .error (.exec code)
    | .ok info => parserevlist info

/-- The loop of `rootlisting` (`for _, obj := range objs`), with the
accumulator `ents`. -/
def rootlistingLoop : List gitobj → List Dirent → List Dirent
  | [], ents => ents
  | obj :: objs, ents =>
    rootlistingLoop objs
      (ents ++ [{ Name := obj.id, Typ := .DT_Link }, { Name := obj.tree, Typ := .DT_Dir }])

/-- The method `gitfs.rootlisting`. -/
def gitfs.rootlisting (g : gitfs) : Outcome (List Dirent) :=
  match g.revlistall with
  | .error e => .error e
  | .panic => .panic
  | .ok objs => .ok (rootlistingLoop objs [])

/-- The method `gitfs.nodefor`.  Every failure is returned as
`syscall.ENOENT`; `uint64(size)` wraps a negative size around. -/
def gitfs.nodefor (g : gitfs) (sha path name : GoString) : Outcome Node :=
  let fullpath : GoString := if path ≠ [] then path ++ SLASH :: name else name
  match g.git [lsTreeArg, zArg, sha, fullpath] with
  | .error _ => .error .ENOENT
  | .ok data =>
    match parsetreeobjs data.elems with
    | .panic => .panic
    | .error _ => .error .ENOENT
    | .ok objs =>
      match objs with
      | [o] =>
        match g.git [catFileArg, sArg, o.id] with
        | .error _ => .error .ENOENT
        | .ok sdata =>
          let sdata1 : List Byte :=
            if sdata.elems.length > 0 ∧ sdata.elems.getLast? = some LF then sdata.elems.dropLast
            else sdata.elems
          match ParseInt sdata1 10 with
          | (_, some _) => .error .ENOENT
          | (size, none) =>
            if o.mode = 0o040000 then .ok (.dir { tree := sha, path := fullpath })
            else
              .ok (.file { name := name, id := o.id, mode := o.mode,
                           size := (size % 2 ^ 64).toNat, data := [] })
      | _ => .error .ENOENT

/-- The method `dir.Lookup`; `gfs` is the package variable. -/
def dir.Lookup (gfs : gitfs) (d : dir) (name : GoString) : Outcome Node :=
  if d.tree = [] then
    if d.path = [] ∧ name.length = 40 then .ok (.dir { tree := name, path := [] })
    else .error .ENOENT
  else
    match gfs.nodefor d.tree d.path name with
    | .ok node => .ok node
    | .error _ => .error .ENOENT
    | .panic => .panic

/-- The method `dir.ReadDirAll`; `gfs` is the package variable.  The errors of
`rootlisting` and `treelisting` are logged and returned as they are. -/
def dir.ReadDirAll (gfs : gitfs) (d : dir) : Outcome (List Dirent) :=
  if d.tree = [] then gfs.rootlisting
  else if d.tree.length = 40 then gfs.treelisting gfs d.tree d.path
  else .error .ENOENT

/-! ## Notions of the specification

The definitions below are not part of the program: they say, in the words of
the specification, what the inputs of the theorems look like. -/

/-- The digits of a numeral in base `base` (at most 10): a non-empty string of
the bytes `'0'` to `'0' + base - 1`. -/
def isNumeral (base : Nat) (s : List Nat) : Prop :=
  s ≠ [] ∧ ∀ c : Nat, c ∈ s → 48 ≤ c ∧ c < 48 + base

instance (base : Nat) (s : List Nat) : Decidable (isNumeral base s) := by
  unfold isNumeral; infer_instance

/-- The number that a numeral denotes in base `base`. -/
def numeralValue (base : Nat) (s : List Nat) : Nat :=
  s.foldl (fun (n c : Nat) => n * base + (c - 48)) 0

/-- The key of a header line `"<key> <value>"`: the text before its first
space (the whole line when it has no space). -/
def lineKey (l : GoString) : GoString := l.takeWhile (· ≠ SP)

/-- The header lines that `parsecommittree` honors: exactly two fields
separated by one space, the first of which is `"tree"`. -/
def isTreeLine (l : GoString) : Prop :=
  (Split SP l).length = 2 ∧ (Split SP l).head? = some gittree

instance (l : GoString) : Decidable (isTreeLine l) := by
  unfold isTreeLine; infer_instance

/-- A record of the batch listing: the header line `"<id> commit <size>\n"`,
the payload (a header section, a blank line, free text) and one separator
byte; `tree` is the tree id that the header section of the payload names. -/
structure RevRecord where
  id : GoString
  size : GoString
  header : List Byte
  body : List Byte
  sep : Byte
  tree : GoString

/-- The payload of a record: its header section, the blank line that ends it,
and the free text. -/
def RevRecord.payload (r : RevRecord) : List Byte :=
  r.header ++ LF :: LF :: r.body

/-- The bytes of a record in the batch listing. -/
def RevRecord.encode (r : RevRecord) : List Byte :=
  r.id ++ SP :: (gitcommit ++ SP :: (r.size ++ LF :: (r.payload ++ [r.sep])))

/-- A well-formed record: the id is 40 bytes long and is a field of the header
line (no space, no newline); the size is the decimal numeral of the length of
the payload, which fits an `int` as the length of every Go slice does; the
header section ends at the first blank line of the payload; the first line of
the header section whose key is `"tree"` is `"tree <T>"`, with `T` one field. -/
def RevRecord.WellFormed (r : RevRecord) : Prop :=
  r.id.length = 40 ∧ SP ∉ r.id ∧ LF ∉ r.id ∧
  isNumeral 10 r.size ∧ numeralValue 10 r.size = r.payload.length ∧
  r.payload.length < 2 ^ 63 ∧
  ¬ [LF, LF] <:+: r.header ++ [LF] ∧
  ∃ pre post : List GoString,
    Split LF r.header = pre ++ (gittree ++ SP :: r.tree) :: post ∧ SP ∉ r.tree ∧
    ∀ p ∈ pre, lineKey p ≠ gittree

/-- The commit record that the parser is to return for a record of the listing. -/
def RevRecord.obj (r : RevRecord) : gitobj :=
  { kind := gitcommit, id := r.id, tree := r.tree, mode := 0, data := [] }

/-- An entry of a tree listing `"<mode> <type> <id>\t<name>\x00"`, by its four
texts. -/
structure TreeEntry where
  mode : GoString
  kind : GoString
  id : GoString
  name : List Byte

/-- The bytes of an entry in the tree listing. -/
def TreeEntry.encode (e : TreeEntry) : List Byte :=
  e.mode ++ SP :: (e.kind ++ SP :: (e.id ++ TAB :: (e.name ++ [NUL])))

/-- A well-formed entry: the mode is an octal numeral (of a mode, an `int64`
in the program: its value is below `2 ^ 63`), the type is `"blob"` or `"tree"`,
the id is 40 bytes long without space or tab, the name has no NUL. -/
def TreeEntry.WellFormed (e : TreeEntry) : Prop :=
  isNumeral 8 e.mode ∧ numeralValue 8 e.mode < 2 ^ 63 ∧
  (e.kind = gitblob ∨ e.kind = gittree) ∧
  e.id.length = 40 ∧ SP ∉ e.id ∧ TAB ∉ e.id ∧ NUL ∉ e.name

instance (e : TreeEntry) : Decidable e.WellFormed := by
  unfold TreeEntry.WellFormed; infer_instance

/-- The object that the parser is to return for an entry of the listing. -/
def TreeEntry.obj (e : TreeEntry) : gitobj :=
  { kind := e.kind, id := e.id, tree := [], mode := (numeralValue 8 e.mode : Int),
    data := e.name }

/-- Resolving one path component `a` from the tree `t`: the id of the first
entry of kind tree named `a` in the listing of `t`; `none` when the listing
cannot be had or has no such entry. -/
def resolveComponent (g : gitfs) (t a : GoString) : Option GoString :=
  match g.treeobjs t with
  | .ok objs => (objs.find? fun o => decide (o.kind = gittree ∧ o.data = a)).map fun o => o.id
  | _ => none

/-- The path resolver of the specification: the components are resolved one
after the other, empty components are skipped, and no component leaves the
starting tree unchanged. -/
def resolvePath (g : gitfs) : GoString → List GoString → Option GoString
  | t, [] => some t
  | t, c :: cs =>
    if c = [] then resolvePath g t cs
    else
      match resolveComponent g t c with
      | some t1 => resolvePath g t1 cs
      | none => none

/-- The presentation of a tree entry by its mode, in the words of the
specification: directory for `0o040000`, symlink for `0o120000`, regular file
for every other mode. -/
def presentation (mode : Int) : DirentType :=
  if mode = 0o040000 then .DT_Dir
  else if mode = 0o120000 then .DT_Link
  else .DT_File

/-- The entries of the root directory for a list of commit records: for each
record, in order, a symlink named by the commit id and a directory named by
the tree id. -/
def rootEntries : List gitobj → List Dirent
  | [] => []
  | r :: rs =>
    { Name := r.id, Typ := .DT_Link } :: { Name := r.tree, Typ := .DT_Dir } :: rootEntries rs

/-- The non-empty slash-separated components of a path. -/
def components (p : GoString) : List GoString :=
  (Split SLASH p).filter fun c => decide (c ≠ [])

/-- Two outcomes for the paths `p` and `q` are the same up to the path that an
error message quotes: the same value, or the same error, or the error "Missing
subtree" for the same component. -/
def sameUpToPath {α : Type} (p q : GoString) (r s : Outcome α) : Prop :=
  (∃ a, r = .ok a ∧ s = .ok a) ∨ (∃ e, r = .error e ∧ s = .error e) ∨
  ∃ c, r = .error (.missingSubtree c p) ∧ s = .error (.missingSubtree c q)

/-- The relative path after the names `names` were looked up one after the
other below a tree: the names joined by `"/"`, as `nodefor` joins them. -/
def joinPath (names : List GoString) : GoString :=
  names.foldl (fun p n => if p ≠ [] then p ++ SLASH :: n else n) []

/-- The directory node reached from `d` by looking up `names` one after the
other; `none` when a `Lookup` fails or yields a file. -/
def lookupAll (gfs : gitfs) : dir → List GoString → Option dir
  | d, [] => some d
  | d, n :: ns =>
    match d.Lookup gfs n with
    | .ok (.dir d1) => lookupAll gfs d1 ns
    | _ => none

/-- The FormatError of the specification: the errors that the three parsers
create for malformed backend output. -/
def GoError.isFormatError : GoError → Bool
  | .noHeaderSeparator => true
  | .noTreeInCommit => true
  | .invalidRevListLine _ _ => true
  | .noTabInInfoline => true
  | .invalidLength _ => true
  | .parseInt _ _ => true
  | .invalidType _ => true
  | .invalidSHA _ => true
  | .noNULDelimitingName => true
  | _ => false

/-- The BackendError of the specification: a failed `git` query. -/
def GoError.isBackendError : GoError → Bool
  | .exec _ => true
  | _ => false

/-- The errors that `treelisting` creates for a missing subtree or tree. -/
def GoError.isMissing : GoError → Bool
  | .missingSubtree _ _ => true
  | .missingTree _ => true
  | _ => false

/-! ## Example inputs -/

/-- An object id: forty times the byte `'a'`. -/
def exampleId : GoString := List.replicate 40 97

/-- A second object id: forty times the byte `'b'`. -/
def exampleId2 : GoString := List.replicate 40 98

/-- The record `"aa…a commit 8\ntree T\n\n\n"`. -/
def exampleRecord : RevRecord :=
  { id := exampleId, size := [56], header := [116, 114, 101, 101, 32, 84], body := [],
    sep := 10, tree := [84] }

/-- The record `"bb…b commit 32\nparent x\ntree U\nauthor a b\n\nmsg\n\n"`. -/
def exampleRecord2 : RevRecord :=
  { id := exampleId2, size := [51, 50],
    header := [112, 97, 114, 101, 110, 116, 32, 120, 10, 116, 114, 101, 101, 32, 85, 10,
      97, 117, 116, 104, 111, 114, 32, 97, 32, 98],
    body := [109, 115, 103, 10], sep := 10, tree := [85] }

/-- The entry `"100644 blob aa…a\tREAD ME\t.\xff\x00"`, whose name has a space,
a tab and a byte that is not UTF-8. -/
def exampleEntry : TreeEntry :=
  { mode := [49, 48, 48, 54, 52, 52], kind := gitblob, id := exampleId,
    name := [82, 69, 65, 68, 32, 77, 69, 9, 46, 255] }

/-- The entry `"040000 tree bb…b\tsub\x00"`. -/
def exampleEntry2 : TreeEntry :=
  { mode := [48, 52, 48, 48, 48, 48], kind := gittree, id := exampleId2,
    name := [115, 117, 98] }

/-- A third object id: forty times the byte `'c'`. -/
def exampleId3 : GoString := List.replicate 40 99

/-- A backend with three trees: `aa…a` holds the blob `f`, the blob `b` and the
tree `a` (id `bb…b`); `bb…b` holds the blob `c`, the tree `d` (id `aa…a`) and the
tree `b` (id `cc…c`); `cc…c` holds the blob `g`.  Every other query fails. -/
def exampleBackend : gitfs :=
  { gitstdin := fun _ args =>
      if args = [lsTreeArg, zArg, exampleId] then
        .ok ⟨[49, 48, 48, 54, 52, 52, 32] ++ gitblob ++ [32] ++ exampleId ++ [9, 102, 0] ++
          [49, 48, 48, 54, 52, 52, 32] ++ gitblob ++ [32] ++ exampleId ++ [9, 98, 0] ++
          [48, 52, 48, 48, 48, 48, 32] ++ gittree ++ [32] ++ exampleId2 ++ [9, 97, 0], []⟩
      else if args = [lsTreeArg, zArg, exampleId2] then
        .ok ⟨[49, 48, 48, 54, 52, 52, 32] ++ gitblob ++ [32] ++ exampleId ++ [9, 99, 0] ++
          [48, 52, 48, 48, 48, 48, 32] ++ gittree ++ [32] ++ exampleId ++ [9, 100, 0] ++
          [48, 52, 48, 48, 48, 48, 32] ++ gittree ++ [32] ++ exampleId3 ++ [9, 98, 0], []⟩
      else if args = [lsTreeArg, zArg, exampleId3] then
        .ok ⟨[49, 48, 48, 54, 52, 52, 32] ++ gitblob ++ [32] ++ exampleId ++ [9, 103, 0], []⟩
      else .error 128 }

/-- A backend for the whole projection.  `git rev-list --all` prints the
commit `aa…a`, and `git cat-file --batch` on it prints `exampleRecord` (tree
`T`) into a buffer with two spare bytes.  The tree `aa…a` lists the file `f`,
the directory `a`, the entry `w` of mode `100666` and the symlink `l`; the
listing of `bb…b` is malformed (`"xyz"`).  The targeted queries below `aa…a`
find `f` (blob `cc…c`, 12 bytes) and `a` (tree `bb…b`, 64 bytes), nothing for
`n`, two entries for `m`, and an entry whose size is not a number for `u`.
Every other query fails with exit code 128. -/
def exampleBackend2 : gitfs :=
  { gitstdin := fun stdin args =>
      if args = [revListArg, allArg] then .ok ⟨exampleId ++ [10], []⟩
      else if args = [catFileArg, batchArg] ∧ stdin = some (exampleId ++ [10]) then
        .ok ⟨exampleRecord.encode, [0, 0]⟩
      else if args = [lsTreeArg, zArg, exampleId] then
        .ok ⟨[49, 48, 48, 54, 52, 52, 32] ++ gitblob ++ [32] ++ exampleId3 ++ [9, 102, 0] ++
          [48, 52, 48, 48, 48, 48, 32] ++ gittree ++ [32] ++ exampleId2 ++ [9, 97, 0] ++
          [49, 48, 48, 54, 54, 54, 32] ++ gitblob ++ [32] ++ exampleId3 ++ [9, 119, 0] ++
          [49, 50, 48, 48, 48, 48, 32] ++ gitblob ++ [32] ++ exampleId3 ++ [9, 108, 0], []⟩
      else if args = [lsTreeArg, zArg, exampleId2] then .ok ⟨[120, 121, 122], []⟩
      else if args = [lsTreeArg, zArg, exampleId, [102]] then
        .ok ⟨[49, 48, 48, 54, 52, 52, 32] ++ gitblob ++ [32] ++ exampleId3 ++ [9, 102, 0], []⟩
      else if args = [lsTreeArg, zArg, exampleId, [97]] then
        .ok ⟨[48, 52, 48, 48, 48, 48, 32] ++ gittree ++ [32] ++ exampleId2 ++ [9, 97, 0], []⟩
      else if args = [lsTreeArg, zArg, exampleId, [110]] then .ok ⟨[], []⟩
      else if args = [lsTreeArg, zArg, exampleId, [109]] then
        .ok ⟨[49, 48, 48, 54, 52, 52, 32] ++ gitblob ++ [32] ++ exampleId3 ++ [9, 109, 0] ++
          [49, 48, 48, 54, 52, 52, 32] ++ gitblob ++ [32] ++ exampleId3 ++ [9, 109, 0], []⟩
      else if args = [lsTreeArg, zArg, exampleId, [117]] then
        .ok ⟨[49, 48, 48, 54, 52, 52, 32] ++ gitblob ++ [32] ++ exampleId ++ [9, 117, 0], []⟩
      else if args = [catFileArg, sArg, exampleId3] then .ok ⟨[49, 50, 10], []⟩
      else if args = [catFileArg, sArg, exampleId2] then .ok ⟨[54, 52, 10], []⟩
      else if args = [catFileArg, sArg, exampleId] then .ok ⟨[63, 10], []⟩
      else .error 128 }

/-! # Lemmas on the library functions -/

theorem Index_byte_not_mem (c : Byte) (s : List Byte) (h : c ∉ s) : Index [c] s = none := by
  induction s with
  | nil => simp [Index]
  | cons b s ih =>
    simp only [List.mem_cons, not_or] at h
    simp [Index, List.isPrefixOf, ih h.2, h.1]

theorem Index_byte_append (c : Byte) (a r : List Byte) (h : c ∉ a) :
    Index [c] (a ++ c :: r) = some a.length := by
  induction a with
  | nil => simp [Index, List.isPrefixOf]
  | cons b a ih =>
    simp only [List.mem_cons, not_or] at h
    simp [Index, List.isPrefixOf, ih h.2, h.1]

theorem Cut_byte_not_mem (c : Byte) (s : List Byte) (h : c ∉ s) : Cut s [c] = (s, [], false) := by
  simp [Cut, Index_byte_not_mem c s h]

theorem Cut_byte_append (c : Byte) (a r : List Byte) (h : c ∉ a) :
    Cut (a ++ c :: r) [c] = (a, r, true) := by
  simp [Cut, Index_byte_append c a r h]

theorem Split_ne_nil (c : Byte) (s : GoString) : Split c s ≠ [] := by
  cases s with
  | nil => simp [Split]
  | cons b s =>
    simp only [Split]
    split
    · simp
    · split <;> simp

theorem Split_not_mem (c : Byte) (a : GoString) (h : c ∉ a) : Split c a = [a] := by
  induction a with
  | nil => simp [Split]
  | cons b a ih =>
    simp only [List.mem_cons, not_or] at h
    have hb : b ≠ c := fun e => h.1 e.symm
    simp [Split, hb, ih h.2]

theorem Split_append (c : Byte) (a s : GoString) (h : c ∉ a) :
    Split c (a ++ c :: s) = a :: Split c s := by
  induction a with
  | nil => simp [Split]
  | cons b a ih =>
    simp only [List.mem_cons, not_or] at h
    have hb : b ≠ c := fun e => h.1 e.symm
    simp [Split, hb, ih h.2]

theorem Split_head (c : Byte) (s : GoString) :
    (Split c s).head? = some (s.takeWhile (· ≠ c)) := by
  induction s with
  | nil => simp [Split]
  | cons b s ih =>
    by_cases hb : b = c
    · simp [Split, hb]
    · simp only [Split, hb, if_false]
      cases hs : Split c s with
      | nil => exact absurd hs (Split_ne_nil c s)
      | cons p ps =>
        rw [hs] at ih
        simp at ih
        simp [List.takeWhile, hb, ih]

theorem mem_Split_not_mem (c : Byte) (s : GoString) : ∀ l ∈ Split c s, c ∉ l := by
  induction s with
  | nil => simp [Split]
  | cons b s ih =>
    by_cases hb : b = c
    · simp only [Split, hb, if_true]
      intro l hl
      simp only [List.mem_cons] at hl
      rcases hl with rfl | hl
      · simp
      · exact ih l hl
    · simp only [Split, hb, if_false]
      cases hs : Split c s with
      | nil => exact absurd hs (Split_ne_nil c s)
      | cons p ps =>
        rw [hs] at ih
        intro l hl
        simp only [List.mem_cons] at hl
        rcases hl with rfl | hl
        · have := ih p (by simp)
          simp only [List.mem_cons, not_or]
          exact ⟨fun e => hb e.symm, this⟩
        · exact ih l (by simp [hl])

theorem Index_eq_none (sep s : List Byte) (h : ¬ sep <:+: s) : Index sep s = none := by
  induction s with
  | nil =>
    have : sep ≠ [] := by
      rintro rfl
      exact h List.nil_infix
    simp [Index, this]
  | cons b s ih =>
    have h1 : ¬ sep <:+: s := fun hi => h (hi.trans (List.infix_cons (List.infix_refl s)))
    have h2 : sep.isPrefixOf (b :: s) = false := by
      rw [Bool.eq_false_iff]
      intro hp
      exact h (List.isPrefixOf_iff_prefix.mp hp).isInfix
    simp [Index, ih h1, h2]

theorem Index_blank_line (h body : List Byte) (hh : ¬ [LF, LF] <:+: h ++ [LF]) :
    Index [LF, LF] (h ++ LF :: LF :: body) = some h.length := by
  induction h with
  | nil => simp [Index, List.isPrefixOf]
  | cons b h ih =>
    have h1 : ¬ [LF, LF] <:+: h ++ [LF] := fun hi =>
      hh (hi.trans (List.infix_cons (List.infix_refl _)))
    have h2 : List.isPrefixOf [LF, LF] (b :: h ++ LF :: LF :: body) = false := by
      rw [Bool.eq_false_iff]
      intro hp
      apply hh
      cases h with
      | nil =>
        simp [List.isPrefixOf] at hp
        simp [hp]
      | cons b1 h =>
        simp [List.isPrefixOf] at hp
        rw [← hp.1, ← hp.2]
        exact (List.prefix_append [LF, LF] (h ++ [LF])).isInfix
    simp only [List.cons_append] at h2 ⊢
    simp [Index, h2, ih h1]

theorem Cut_blank_line (h body : List Byte) (hh : ¬ [LF, LF] <:+: h ++ [LF]) :
    Cut (h ++ LF :: LF :: body) [LF, LF] = (h, body, true) := by
  simp [Cut, Index_blank_line h body hh]

theorem Cut_not_found (sep s : List Byte) (h : ¬ sep <:+: s) : Cut s sep = (s, [], false) := by
  simp [Cut, Index_eq_none sep s h]

theorem foldl_numeral_le (base : Nat) (s : List Nat) (n : Nat) (hb : 1 ≤ base) :
    n ≤ s.foldl (fun (n c : Nat) => n * base + (c - 48)) n := by
  induction s generalizing n with
  | nil => simp
  | cons c s ih =>
    simp only [List.foldl_cons]
    calc n ≤ n * base := Nat.le_mul_of_pos_right n hb
      _ ≤ n * base + (c - 48) := Nat.le_add_right _ _
      _ ≤ _ := ih _

theorem parseUintLoop_numeral (base : Nat) (hb : 1 ≤ base) (hb10 : base ≤ 10) (s : List Nat) (n : Nat)
    (hs : ∀ c : Nat, c ∈ s → 48 ≤ c ∧ c < 48 + base)
    (hv : s.foldl (fun (n c : Nat) => n * base + (c - 48)) n ≤ maxUint64) :
    parseUintLoop base s n = (s.foldl (fun (n c : Nat) => n * base + (c - 48)) n, none) := by
  induction s generalizing n with
  | nil => simp [parseUintLoop]
  | cons c s ih =>
    have hc : 48 ≤ (c : Nat) ∧ (c : Nat) < 48 + base := hs c (by simp)
    have hd : digitVal c = some (c - 48) := by
      have : c ≤ 57 := by omega
      simp [digitVal, hc.1, this]
    simp only [List.foldl_cons] at hv ⊢
    have hle := foldl_numeral_le base s (n * base + (c - 48)) hb
    have h1 : ¬ base ≤ c - 48 := by omega
    have h2 : ¬ maxUint64 < n * base + (c - 48) := by omega
    have h3 : ¬ maxUint64 / base + 1 ≤ n := by
      have : n * base ≤ maxUint64 := by omega
      have := (Nat.le_div_iff_mul_le (by omega : 0 < base)).mpr this
      omega
    simp only [parseUintLoop, hd, h1, h2, h3, if_false]
    exact ih _ (fun c hc => hs c (List.mem_cons_of_mem _ hc)) hv

theorem ParseInt_numeral (base : Nat) (hb : 1 ≤ base) (hb10 : base ≤ 10) (s : List Nat)
    (hs : isNumeral base s) (hv : numeralValue base s < 2 ^ 63) :
    ParseInt s base = ((numeralValue base s : Int), none) := by
  obtain ⟨hne, hd⟩ := hs
  cases s with
  | nil => exact absurd rfl hne
  | cons c t =>
    have hc := hd c (by simp)
    have h43 : c ≠ 43 := by omega
    have h45 : c ≠ 45 := by omega
    have hu : ParseUint (c :: t) base = (numeralValue base (c :: t), none) := by
      simp only [ParseUint, if_neg hne]
      exact parseUintLoop_numeral base hb hb10 _ 0 hd (by
        have : numeralValue base (c :: t) < 2 ^ 63 := hv
        unfold numeralValue at this
        unfold maxUint64
        omega)
    have hv2 : ¬ 2 ^ 63 ≤ numeralValue base (c :: t) := by omega
    simp [ParseInt, h43, h45, hu, hv2]
    omega

theorem not_isTreeLine (l : GoString) (h : ¬ isTreeLine l) (w : GoString) :
    Split SP l ≠ [gittree, w] := by
  intro hs
  exact h (by simp [isTreeLine, hs])

theorem lineKey_of_Split (l k : GoString) (rest : List GoString) (h : Split SP l = k :: rest) :
    lineKey l = k := by
  have := Split_head SP l
  rw [h] at this
  simp only [List.head?_cons, Option.some.injEq] at this
  simp [lineKey, this]

theorem Split_tree_line (v : GoString) (hv : SP ∉ v) :
    Split SP (gittree ++ SP :: v) = [gittree, v] := by
  rw [Split_append SP gittree v (by decide), Split_not_mem SP v hv]

theorem parsecommittreeLines_skip (l : GoString) (ls : List GoString)
    (h : ∀ w, Split SP l ≠ [gittree, w]) :
    parsecommittreeLines (l :: ls) = parsecommittreeLines ls := by
  rw [parsecommittreeLines]
  split
  · rename_i key value heq
    by_cases hk : key = gittree
    · subst hk
      exact absurd heq (h value)
    · simp [hk]
  · rfl

theorem parsecommittreeLines_first (pre post : List GoString) (v : GoString) (hv : SP ∉ v)
    (hpre : ∀ p ∈ pre, ∀ w, Split SP p ≠ [gittree, w]) :
    parsecommittreeLines (pre ++ (gittree ++ SP :: v) :: post) = .ok v := by
  induction pre with
  | nil =>
    simp only [List.nil_append]
    rw [parsecommittreeLines]
    simp [Split_tree_line v hv]
  | cons p pre ih =>
    rw [List.cons_append, parsecommittreeLines_skip p _ (hpre p (by simp))]
    exact ih (fun q hq => hpre q (by simp [hq]))

theorem parsecommittreeLines_none (lines : List GoString)
    (h : ∀ l ∈ lines, ∀ w, Split SP l ≠ [gittree, w]) :
    parsecommittreeLines lines = .error .noTreeInCommit := by
  induction lines with
  | nil => rfl
  | cons l ls ih =>
    rw [parsecommittreeLines_skip l ls (h l (by simp))]
    exact ih (fun q hq => h q (by simp [hq]))

theorem parsecommittree_of_header (header body : List Byte)
    (hh : ¬ [LF, LF] <:+: header ++ [LF]) :
    parsecommittree (header ++ LF :: LF :: body) = parsecommittreeLines (Split LF header) := by
  simp [parsecommittree, Cut_blank_line header body hh]

theorem parsecommittree_ok (header body : List Byte) (pre post : List GoString)
    (v : GoString) (hh : ¬ [LF, LF] <:+: header ++ [LF])
    (hl : Split LF header = pre ++ (gittree ++ SP :: v) :: post) (hv : SP ∉ v)
    (hpre : ∀ p ∈ pre, ¬ isTreeLine p) :
    parsecommittree (header ++ LF :: LF :: body) = .ok v := by
  rw [parsecommittree_of_header header body hh, hl]
  exact parsecommittreeLines_first pre post v hv (fun p hp => not_isTreeLine p (hpre p hp))

/-- C3 (amended).  For every commit payload `header ++ "\n\n" ++ body` whose
header section `header` ends at the first blank line, and whose header lines
`Split LF header` contain a line `"tree " ++ v` of exactly two space-separated
fields that no line of exactly two fields with first field `"tree"` precedes,
`parsecommittree` succeeds and returns `v`, whatever the other header lines
before (`pre`) and after (`post`) it are, later `"tree"` lines included, and
whatever follows the blank line (`body`). -/
theorem parsecommittree_first_tree_line (header body : List Byte) (pre post : List GoString)
    (v : GoString) (hh : ¬ [LF, LF] <:+: header ++ [LF])
    (hl : Split LF header = pre ++ (gittree ++ SP :: v) :: post) (hv : SP ∉ v)
    (hpre : ∀ p ∈ pre, ¬ isTreeLine p) :
    parsecommittree (header ++ LF :: LF :: body) = .ok v :=
  parsecommittree_ok header body pre post v hh hl hv hpre

/-- Witness of C3 (amended): a header with a `parent` line, a line `"tree a b"`
of three fields, the line `"tree T"`, a later line `"tree U"`, and the text
`"tree V"` after the blank line; the parser returns `T`. -/
theorem parsecommittree_first_tree_line_witness :
    parsecommittree ([112, 32, 120, 10, 116, 114, 101, 101, 32, 97, 32, 98, 10] ++
      [116, 114, 101, 101, 32, 84, 10, 116, 114, 101, 101, 32, 85] ++ LF :: LF ::
      [116, 114, 101, 101, 32, 86, 10, 10]) = .ok [84] :=
  parsecommittree_first_tree_line _ _ [[112, 32, 120], [116, 114, 101, 101, 32, 97, 32, 98]]
    [[116, 114, 101, 101, 32, 85]] [84] (by decide) (by decide) (by decide) (by decide)

/-- Counterexample to C3 as stated: the payload `"tree a b\n\n"` has a blank
line and its only header line has the key `"tree"`, yet `parsecommittree`
fails: it only honors lines of exactly two space-separated fields. -/
theorem parsecommittree_counterexample :
    ¬ [LF, LF] <:+: [116, 114, 101, 101, 32, 97, 32, 98] ++ [LF] ∧
    Split LF [116, 114, 101, 101, 32, 97, 32, 98] = [[116, 114, 101, 101, 32, 97, 32, 98]] ∧
    lineKey [116, 114, 101, 101, 32, 97, 32, 98] = gittree ∧
    parsecommittree ([116, 114, 101, 101, 32, 97, 32, 98] ++ LF :: LF :: []) =
      .error .noTreeInCommit := by
  decide

/-- C4.  `parsecommittree` returns an error (and no tree id) for every payload
that contains no blank line `"\n\n"`, and for every payload in which no line
before the first blank line has the key `"tree"`, whatever follows the blank
line (`body`), a `"tree"` line included. -/
theorem parsecommittree_error :
    (∀ data : List Byte, ¬ [LF, LF] <:+: data →
      parsecommittree data = .error .noHeaderSeparator) ∧
    (∀ header body : List Byte, ¬ [LF, LF] <:+: header ++ [LF] →
      (∀ l ∈ Split LF header, lineKey l ≠ gittree) →
      parsecommittree (header ++ LF :: LF :: body) = .error .noTreeInCommit) := by
  constructor
  · intro data h
    simp [parsecommittree, Cut_not_found _ data h]
  · intro header body hh hk
    rw [parsecommittree_of_header header body hh]
    apply parsecommittreeLines_none
    intro l hl w hs
    exact hk l hl (lineKey_of_Split l gittree [w] hs)

/-- Witness of C4: `"tree T\n"` has no blank line; in `"p x\n\ntree T\n\n"`
the only `"tree"` line comes after the first blank line. -/
theorem parsecommittree_error_witness :
    parsecommittree [116, 114, 101, 101, 32, 84, 10] = .error .noHeaderSeparator ∧
    parsecommittree ([112, 32, 120] ++ LF :: LF :: [116, 114, 101, 101, 32, 84, 10, 10]) =
      .error .noTreeInCommit :=
  ⟨parsecommittree_error.1 _ (by decide), parsecommittree_error.2 _ _ (by decide) (by decide)⟩

theorem lineKey_of_isTreeLine (l : GoString) (h : isTreeLine l) : lineKey l = gittree := by
  obtain ⟨h2, hh⟩ := h
  cases hs : Split SP l with
  | nil => simp [hs] at h2
  | cons k rest =>
    rw [hs] at hh
    simp only [List.head?_cons, Option.some.injEq] at hh
    rw [hh] at hs
    exact lineKey_of_Split l gittree rest hs

theorem numeral_not_mem (base : Nat) (s : List Nat) (c : Nat) (hs : isNumeral base s) (hc : c < 48) :
    c ∉ s := by
  intro hm
  have := hs.2 c hm
  omega

theorem parsecommittree_payload (r : RevRecord) (hr : r.WellFormed) :
    parsecommittree r.payload = .ok r.tree := by
  obtain ⟨_, _, _, _, _, _, hh, pre, post, hl, hv, hpre⟩ := hr
  exact parsecommittree_ok r.header r.body pre post r.tree hh hl hv
    (fun p hp ht => hpre p hp (lineKey_of_isTreeLine p ht))

theorem parserevlistLoop_record (r : RevRecord) (hr : r.WellFormed) (spare t : List Byte)
    (objs : List gitobj) (fuel : Nat) :
    parserevlistLoop spare (fuel + 1) (r.encode ++ t) objs =
      parserevlistLoop spare fuel t (objs ++ [r.obj]) := by
  have htree := parsecommittree_payload r hr
  obtain ⟨hid, hsp, hlf, hnum, hval, hlen, _, _⟩ := hr
  have hsizeSP : SP ∉ r.size := numeral_not_mem 10 r.size SP hnum (by decide)
  have hsizeLF : LF ∉ r.size := numeral_not_mem 10 r.size LF hnum (by decide)
  have hcline : LF ∉ r.id ++ SP :: (gitcommit ++ SP :: r.size) := by
    simp only [List.mem_append, List.mem_cons, not_or]
    exact ⟨hlf, by decide, by decide, by decide, hsizeLF⟩
  have hdata : r.encode ++ t =
      (r.id ++ SP :: (gitcommit ++ SP :: r.size)) ++ LF :: (r.payload ++ r.sep :: t) := by
    simp [RevRecord.encode]
  have hcut := Cut_byte_append LF _ (r.payload ++ r.sep :: t) hcline
  have hsplit : Split SP (r.id ++ SP :: (gitcommit ++ SP :: r.size)) = [r.id, gitcommit, r.size] := by
    rw [Split_append SP r.id _ hsp, Split_append SP gitcommit _ (by decide),
      Split_not_mem SP r.size hsizeSP]
  have hatoi : Atoi r.size = ((r.payload.length : Int), none) := by
    have := ParseInt_numeral 10 (by omega) (by omega) r.size hnum (by omega)
    rw [hval] at this
    exact this
  have hslice : sliceTo (r.payload ++ r.sep :: t) spare (r.payload.length : Int) =
      some r.payload := by
    simp [sliceTo, List.take_append_of_le_length]
    omega
  have hfrom : sliceFrom (r.payload ++ r.sep :: t) ((r.payload.length : Int) + 1) = some t := by
    have h1 : ((r.payload.length : Int) + 1).toNat = r.payload.length + 1 := by omega
    simp only [sliceFrom, h1]
    simp
    omega
  have hlt : ¬ ((t.length : Int) + 1 < 0) := by omega
  rw [parserevlistLoop, hdata, hcut]
  simp [hsplit, headerError, hid, hatoi, hslice, htree, hfrom, RevRecord.obj, hlt]


theorem parserevlistLoop_records (rs : List RevRecord) (hrs : ∀ r ∈ rs, r.WellFormed)
    (spare t : List Byte) (objs : List gitobj) (fuel : Nat) :
    parserevlistLoop spare (rs.length + fuel) ((rs.map RevRecord.encode).flatten ++ t) objs =
      parserevlistLoop spare fuel t (objs ++ rs.map RevRecord.obj) := by
  induction rs generalizing objs with
  | nil => simp
  | cons r rs ih =>
    have hf : (r :: rs).length + fuel = (rs.length + fuel) + 1 := by
      simp only [List.length_cons]; omega
    simp only [List.map_cons, List.flatten_cons, List.append_assoc]
    rw [hf, parserevlistLoop_record r (hrs r (by simp)) spare _ objs _,
      ih (fun q hq => hrs q (by simp [hq])) (objs ++ [r.obj])]
    simp

theorem revRecord_encode_length_pos (r : RevRecord) : 0 < r.encode.length := by
  simp [RevRecord.encode, gitcommit]

theorem length_le_flatten_encode (rs : List RevRecord) :
    rs.length ≤ (rs.map RevRecord.encode).flatten.length := by
  induction rs with
  | nil => simp
  | cons r rs ih =>
    have := revRecord_encode_length_pos r
    simp only [List.map_cons, List.flatten_cons, List.length_append, List.length_cons]
    omega

theorem parserevlist_after_records (rs : List RevRecord) (hrs : ∀ r ∈ rs, r.WellFormed)
    (spare t : List Byte) :
    ∃ fuel, parserevlist ⟨(rs.map RevRecord.encode).flatten ++ t, spare⟩ =
      match parserevlistLoop spare (fuel + 1) t (rs.map RevRecord.obj) with
      | some r => r
      | none => .panic := by
  have hle := length_le_flatten_encode rs
  refine ⟨((rs.map RevRecord.encode).flatten ++ t).length - rs.length, ?_⟩
  have hf : ((rs.map RevRecord.encode).flatten ++ t).length + 1 =
      rs.length + (((rs.map RevRecord.encode).flatten ++ t).length - rs.length + 1) := by
    simp only [List.length_append]; omega
  simp only [parserevlist]
  rw [hf, parserevlistLoop_records rs hrs spare t [] _]
  simp

/-- C1.  For every batch-listing buffer made of `n ≥ 0` well-formed records
(`RevRecord.WellFormed`: a header line `"<id> commit <size>\n"` with a 40-byte
id, `<size>` the decimal length of the payload, the payload with a line
`"tree <T>"` in its header section, one separator byte), whatever the spare
capacity of the buffer, `parserevlist` succeeds and returns exactly `n` commit
records in encounter order, the i-th with the id of the i-th header line and
the tree `T` of the i-th payload. -/
theorem parserevlist_wellformed (rs : List RevRecord) (spare : List Byte)
    (h : ∀ r ∈ rs, r.WellFormed) :
    parserevlist ⟨(rs.map RevRecord.encode).flatten, spare⟩ = .ok (rs.map RevRecord.obj) := by
  obtain ⟨fuel, hf⟩ := parserevlist_after_records rs h spare []
  rw [List.append_nil] at hf
  rw [hf]
  simp [parserevlistLoop]

theorem Cut_rest_length (s sep : List Byte) (hs : s ≠ []) (hsep : sep ≠ []) :
    (Cut s sep).2.1.length < s.length := by
  have h1 : 0 < s.length := List.length_pos.mpr hs
  have h2 : 0 < sep.length := List.length_pos.mpr hsep
  unfold Cut
  split
  · simp only [List.length_drop]
    omega
  · simpa using h1

theorem sliceFrom_length (rest data1 : List Byte) (lo : Int) (h : sliceFrom rest lo = some data1) :
    data1.length ≤ rest.length := by
  unfold sliceFrom at h
  split at h
  · simp only [Option.some.injEq] at h
    subst h
    simp
  · simp at h

theorem parserevlistLoop_isSome (spare : List Byte) :
    ∀ (fuel : Nat) (data : List Byte) (objs : List gitobj), data.length < fuel →
      (parserevlistLoop spare fuel data objs).isSome = true
  | 0, _, _, h => by omega
  | fuel + 1, data, objs, h => by
    rw [parserevlistLoop]
    by_cases hd : data.length = 0
    · simp [hd]
    · have hne : data ≠ [] := by
        intro e; simp [e] at hd
      have hlen := Cut_rest_length data [LF] hne (by simp)
      rcases hc : Cut data [LF] with ⟨cline, rest, found⟩
      rw [hc] at hlen
      simp only [] at hlen
      simp only [hd, if_false]
      split
      · rfl
      · split
        · rfl
        · split
          · rfl
          · split
            · rfl
            · split
              · rfl
              · rename_i data1 hfrom
                have := sliceFrom_length _ _ _ hfrom
                exact parserevlistLoop_isSome spare fuel data1 _ (by omega)

theorem parserevlistLoop_malformed (spare cline rest : List Byte) (objs : List gitobj)
    (fuel : Nat) (hlf : LF ∉ cline) (hne : cline ≠ [])
    (hbad : headerError (Split SP cline) ≠ none ∨
      ∃ n : Nat, Atoi ((Split SP cline).getD 2 []) = ((n : Int), none) ∧ n ≤ rest.length ∧
        ∃ e, parsecommittree (rest.take n) = .error e) :
    ∃ msg, parserevlistLoop spare (fuel + 1) (cline ++ LF :: rest) objs =
      some (.error (.invalidRevListLine cline msg)) := by
  have hcut := Cut_byte_append LF cline rest hlf
  have hlen : cline.length ≠ 0 := by
    intro h; exact hne (List.length_eq_zero.mp h)
  rw [parserevlistLoop, hcut]
  cases hh : headerError (Split SP cline) with
  | some msg => exact ⟨msg, by simp [hh, hlen]⟩
  | none =>
    rcases hbad with hbad | ⟨n, hatoi, hn, e, he⟩
    · exact absurd hh hbad
    · refine ⟨.couldntFindTree, ?_⟩
      have hslice : sliceTo rest spare (n : Int) = some (rest.take n) := by
        simp [sliceTo, List.take_append_of_le_length hn]
        omega
      have hatoi2 := hatoi
      simp only [List.getD_eq_getElem?_getD] at hatoi2
      simp [hh, hlen, hatoi2, hslice, he]

theorem headerError_ne_none (parts : List GoString)
    (h : parts.length ≠ 3 ∨ (parts.getD 0 []).length ≠ 40 ∨ parts.getD 1 [] ≠ gitcommit) :
    headerError parts ≠ none := by
  unfold headerError
  rcases h with h | h | h
  · simp [h]
  · split
    · simp
    · simp [h]
  · split
    · simp
    · split
      · simp
      · simp [h]

theorem parserevlistLoop_empty_line (spare rest : List Byte) (objs : List gitobj)
    (fuel : Nat) : parserevlistLoop spare (fuel + 1) (LF :: rest) objs = some (.ok objs) := by
  have hcut : Cut (LF :: rest) [LF] = ([], rest, true) := by
    have := Cut_byte_append LF [] rest (by simp)
    simpa using this
  rw [parserevlistLoop, hcut]
  simp

/-- C5 (amended).  For every buffer made of zero or more well-formed records
followed by a record with a newline-terminated header line `cline`: when
`cline` is not empty and does not split into exactly three space-separated
fields, or its id field is not 40 bytes long, or its type field is not
`"commit"`, or its payload (the `n` bytes that a valid size field declares,
`n` at most the bytes that remain) yields no root tree id, `parserevlist`
returns an error and no records at all; and at an empty header line, whatever
follows it, `parserevlist` stops without error and returns the records parsed
before it. -/
theorem parserevlist_malformed (rs : List RevRecord) (hrs : ∀ r ∈ rs, r.WellFormed)
    (cline rest spare : List Byte) (hlf : LF ∉ cline) :
    (cline ≠ [] →
      ((Split SP cline).length ≠ 3 ∨ ((Split SP cline).getD 0 []).length ≠ 40 ∨
        (Split SP cline).getD 1 [] ≠ gitcommit ∨
        ∃ n : Nat, Atoi ((Split SP cline).getD 2 []) = ((n : Int), none) ∧ n ≤ rest.length ∧
          ∃ e, parsecommittree (rest.take n) = .error e) →
      ∃ msg, parserevlist ⟨(rs.map RevRecord.encode).flatten ++ (cline ++ LF :: rest), spare⟩ =
        .error (.invalidRevListLine cline msg)) ∧
    parserevlist ⟨(rs.map RevRecord.encode).flatten ++ ([] ++ LF :: rest), spare⟩ =
      .ok (rs.map RevRecord.obj) := by
  constructor
  · intro hne hbad
    obtain ⟨fuel, hf⟩ := parserevlist_after_records rs hrs spare (cline ++ LF :: rest)
    have hbad2 : headerError (Split SP cline) ≠ none ∨
        ∃ n : Nat, Atoi ((Split SP cline).getD 2 []) = ((n : Int), none) ∧ n ≤ rest.length ∧
          ∃ e, parsecommittree (rest.take n) = .error e := by
      rcases hbad with h | h | h | h
      · exact Or.inl (headerError_ne_none _ (Or.inl h))
      · exact Or.inl (headerError_ne_none _ (Or.inr (Or.inl h)))
      · exact Or.inl (headerError_ne_none _ (Or.inr (Or.inr h)))
      · exact Or.inr h
    obtain ⟨msg, hm⟩ := parserevlistLoop_malformed spare cline rest (rs.map RevRecord.obj) fuel
      hlf hne hbad2
    exact ⟨msg, by rw [hf, hm]⟩
  · obtain ⟨fuel, hf⟩ := parserevlist_after_records rs hrs spare ([] ++ LF :: rest)
    rw [hf, List.nil_append, parserevlistLoop_empty_line spare rest _ fuel]

theorem exampleRecord_wellFormed : exampleRecord.WellFormed :=
  ⟨by decide, by decide, by decide, by decide, by decide, by decide, by decide,
    [], [], by decide, by decide, by decide⟩

theorem exampleRecord2_wellFormed : exampleRecord2.WellFormed :=
  ⟨by decide, by decide, by decide, by decide, by decide, by decide, by decide,
    [[112, 97, 114, 101, 110, 116, 32, 120]], [[97, 117, 116, 104, 111, 114, 32, 97, 32, 98]],
    by decide, by decide, by decide⟩

/-- Witness of C1: a buffer of two records. -/
theorem parserevlist_wellformed_witness :
    parserevlist ⟨([exampleRecord, exampleRecord2].map RevRecord.encode).flatten, [0, 0]⟩ =
      .ok [{ kind := gitcommit, id := exampleId, tree := [84], mode := 0, data := [] },
           { kind := gitcommit, id := exampleId2, tree := [85], mode := 0, data := [] }] :=
  parserevlist_wellformed [exampleRecord, exampleRecord2] [0, 0] (by
    intro r hr
    simp only [List.mem_cons, List.mem_singleton, List.not_mem_nil, or_false] at hr
    rcases hr with rfl | rfl
    · exact exampleRecord_wellFormed
    · exact exampleRecord2_wellFormed)

/-- Counterexample to C5 as stated: after one well-formed record comes a record
whose header line is empty, so that it does not split into three fields (it
splits into one); `parserevlist` returns no error but the record parsed before
it, because its loop stops at an empty line. -/
theorem parserevlist_empty_header_line :
    exampleRecord.WellFormed ∧ (Split SP []).length ≠ 3 ∧
    parserevlist ⟨([exampleRecord].map RevRecord.encode).flatten ++ ([] ++ LF :: [120]), []⟩ =
      .ok [exampleRecord.obj] :=
  ⟨exampleRecord_wellFormed, by decide, by decide⟩

/-- Witness of C5 (amended): one well-formed record, then the header line
`"x y"` of two fields, which gives an error; and two well-formed records, then
an empty header line followed by `"x y\n"`, which gives the two records. -/
theorem parserevlist_malformed_witness :
    (∃ msg, parserevlist ⟨([exampleRecord].map RevRecord.encode).flatten ++
        ([120, 32, 121] ++ LF :: [122]), [0]⟩ =
      .error (.invalidRevListLine [120, 32, 121] msg)) ∧
    parserevlist ⟨([exampleRecord, exampleRecord2].map RevRecord.encode).flatten ++
        ([] ++ LF :: [120, 32, 121, 10]), [0]⟩ =
      .ok [exampleRecord.obj, exampleRecord2.obj] :=
  ⟨(parserevlist_malformed [exampleRecord] (by
        intro r hr
        simp only [List.mem_singleton] at hr
        subst hr
        exact exampleRecord_wellFormed)
      [120, 32, 121] [122] [0] (by decide)).1 (by decide) (Or.inl (by decide)),
    (parserevlist_malformed [exampleRecord, exampleRecord2] (by
        intro r hr
        simp only [List.mem_cons, List.mem_singleton, List.not_mem_nil, or_false] at hr
        rcases hr with rfl | rfl
        · exact exampleRecord_wellFormed
        · exact exampleRecord2_wellFormed)
      [] [120, 32, 121, 10] [0] (by decide)).2⟩

/-- C6, the behaviour of the code at the failing input.  A first header line
with three fields, a 40-byte id, the type `"commit"` and the size field `"-1"`:
`strconv.Atoi` accepts `"-1"`, no error message is set, and the slice
expression `rest[:size]` panics, whatever follows the header line and whatever
the capacity of the buffer.  The claim says that a FormatError is returned. -/
theorem parserevlist_negative_size (rest spare : List Byte) :
    Atoi [45, 49] = (-1, none) ∧
    (∀ fuel, parserevlistLoop spare (fuel + 1)
      ((exampleId ++ [32, 99, 111, 109, 109, 105, 116, 32, 45, 49]) ++ LF :: rest) [] =
        some .panic) ∧
    parserevlist
      ⟨(exampleId ++ [32, 99, 111, 109, 109, 105, 116, 32, 45, 49]) ++ LF :: rest, spare⟩ =
        .panic := by
  have hcut := Cut_byte_append LF (exampleId ++ [32, 99, 111, 109, 109, 105, 116, 32, 45, 49])
    rest (by decide)
  have hsplit : Split SP (exampleId ++ [32, 99, 111, 109, 109, 105, 116, 32, 45, 49]) =
      [exampleId, gitcommit, [45, 49]] := by decide
  have hatoi : Atoi [45, 49] = (-1, none) := by decide
  have hloop : ∀ fuel, parserevlistLoop spare (fuel + 1)
      ((exampleId ++ [32, 99, 111, 109, 109, 105, 116, 32, 45, 49]) ++ LF :: rest) [] =
        some .panic := by
    intro fuel
    have hhdr : headerError [exampleId, gitcommit, [45, 49]] = none := by decide
    have hlen : (exampleId ++ [32, 99, 111, 109, 109, 105, 116, 32, 45, 49]).length ≠ 0 := by
      decide
    rw [parserevlistLoop, hcut]
    simp [hsplit, hhdr, hlen, hatoi, sliceTo]
  refine ⟨hatoi, hloop, ?_⟩
  simp only [parserevlist]
  rw [hloop]

/-- C7, the behaviour of the code at the failing input.  The header line
declares 9 bytes and 8 remain.  The code records the message "invalid size" and
goes on to evaluate `rest[:size]`: in a buffer without spare capacity this
panics; with one spare byte it returns the error, after slicing one byte past
the end of the buffer.  The claim says that a FormatError is returned and that
the code does not slice past the end of the buffer. -/
theorem parserevlist_size_beyond_buffer :
    parserevlist ⟨exampleId ++ [32, 99, 111, 109, 109, 105, 116, 32, 57, 10] ++
      [116, 114, 101, 101, 32, 84, 10, 10], []⟩ = .panic ∧
    parserevlistLoop [] 1 (exampleId ++ [32, 99, 111, 109, 109, 105, 116, 32, 57, 10] ++
      [116, 114, 101, 101, 32, 84, 10, 10]) [] = some .panic ∧
    parserevlist ⟨exampleId ++ [32, 99, 111, 109, 109, 105, 116, 32, 57, 10] ++
      [116, 114, 101, 101, 32, 84, 10, 10], [0]⟩ =
      .error (.invalidRevListLine (exampleId ++ [32, 99, 111, 109, 109, 105, 116, 32, 57])
        (.invalidSizeRest [57] 8)) := by
  decide

theorem parsetreeobjsLoop_entry (e : TreeEntry) (he : e.WellFormed) (t : List Byte)
    (objs : List gitobj) (fuel : Nat) :
    parsetreeobjsLoop (fuel + 1) (e.encode ++ t) objs =
      parsetreeobjsLoop fuel t (objs ++ [e.obj]) := by
  obtain ⟨hnum, hval, hkind, hid, hsp, htab, hnul⟩ := he
  have hmodeSP : SP ∉ e.mode := numeral_not_mem 8 e.mode SP hnum (by decide)
  have hmodeTAB : TAB ∉ e.mode := numeral_not_mem 8 e.mode TAB hnum (by decide)
  have hkindSP : SP ∉ e.kind := by rcases hkind with h | h <;> rw [h] <;> decide
  have hkindTAB : TAB ∉ e.kind := by rcases hkind with h | h <;> rw [h] <;> decide
  have hinfo : TAB ∉ e.mode ++ SP :: (e.kind ++ SP :: e.id) := by
    simp only [List.mem_append, List.mem_cons, not_or]
    exact ⟨hmodeTAB, by decide, hkindTAB, by decide, htab⟩
  have hdata : e.encode ++ t =
      (e.mode ++ SP :: (e.kind ++ SP :: e.id)) ++ TAB :: (e.name ++ NUL :: t) := by
    simp [TreeEntry.encode]
  have hcut := Cut_byte_append TAB _ (e.name ++ NUL :: t) hinfo
  have hcut2 := Cut_byte_append NUL e.name t hnul
  have hsplit : Split SP (e.mode ++ SP :: (e.kind ++ SP :: e.id)) = [e.mode, e.kind, e.id] := by
    rw [Split_append SP e.mode _ hmodeSP, Split_append SP e.kind _ hkindSP,
      Split_not_mem SP e.id hsp]
  have hparse := ParseInt_numeral 8 (by omega) (by omega) e.mode hnum hval
  have hk : ¬ (e.kind ≠ gitblob ∧ e.kind ≠ gittree) := by
    rcases hkind with h | h <;> simp [h]
  rw [parsetreeobjsLoop, hdata, hcut]
  simp only [hsplit]
  simp [hparse, hk, hid, hcut2, TreeEntry.obj]

theorem parsetreeobjsLoop_entries (es : List TreeEntry) (hes : ∀ e ∈ es, e.WellFormed)
    (t : List Byte) (objs : List gitobj) (fuel : Nat) :
    parsetreeobjsLoop (es.length + fuel) ((es.map TreeEntry.encode).flatten ++ t) objs =
      parsetreeobjsLoop fuel t (objs ++ es.map TreeEntry.obj) := by
  induction es generalizing objs with
  | nil => simp
  | cons e es ih =>
    have hf : (e :: es).length + fuel = (es.length + fuel) + 1 := by
      simp only [List.length_cons]; omega
    simp only [List.map_cons, List.flatten_cons, List.append_assoc]
    rw [hf, parsetreeobjsLoop_entry e (hes e (by simp)) _ objs _,
      ih (fun q hq => hes q (by simp [hq])) (objs ++ [e.obj])]
    simp

theorem treeEntry_encode_length_pos (e : TreeEntry) : 0 < e.encode.length := by
  simp [TreeEntry.encode]

theorem length_le_flatten_entries (es : List TreeEntry) :
    es.length ≤ (es.map TreeEntry.encode).flatten.length := by
  induction es with
  | nil => simp
  | cons e es ih =>
    have := treeEntry_encode_length_pos e
    simp only [List.map_cons, List.flatten_cons, List.length_append, List.length_cons]
    omega

theorem parsetreeobjs_after_entries (es : List TreeEntry) (hes : ∀ e ∈ es, e.WellFormed)
    (t : List Byte) :
    ∃ fuel, parsetreeobjs ((es.map TreeEntry.encode).flatten ++ t) =
      match parsetreeobjsLoop (fuel + 1) t (es.map TreeEntry.obj) with
      | some r => r
      | none => .panic := by
  have hle := length_le_flatten_entries es
  refine ⟨((es.map TreeEntry.encode).flatten ++ t).length - es.length, ?_⟩
  have hf : ((es.map TreeEntry.encode).flatten ++ t).length + 1 =
      es.length + (((es.map TreeEntry.encode).flatten ++ t).length - es.length + 1) := by
    simp only [List.length_append]; omega
  simp only [parsetreeobjs]
  rw [hf, parsetreeobjsLoop_entries es hes t [] _]
  simp

/-- C2.  For every tree-listing buffer that is the concatenation of `n ≥ 0`
well-formed entries `"<mode> <type> <id>\t<name>\x00"` (`TreeEntry.WellFormed`:
mode an octal numeral, type blob or tree, id 40 bytes with no space or tab,
name any bytes without NUL), `parsetreeobjs` succeeds and returns exactly `n`
entries in input order, the i-th with mode the value of its octal text, kind
and id the i-th type and id, and name the i-th name byte for byte. -/
theorem parsetreeobjs_wellformed (es : List TreeEntry) (h : ∀ e ∈ es, e.WellFormed) :
    parsetreeobjs (es.map TreeEntry.encode).flatten = .ok (es.map TreeEntry.obj) := by
  obtain ⟨fuel, hf⟩ := parsetreeobjs_after_entries es h []
  rw [List.append_nil] at hf
  rw [hf]
  simp [parsetreeobjsLoop]

theorem Cut_rest_le (s sep : List Byte) : (Cut s sep).2.1.length ≤ s.length := by
  unfold Cut
  split
  · simp only [List.length_drop]
    omega
  · simp

theorem parsetreeobjsLoop_isSome :
    ∀ (fuel : Nat) (data : List Byte) (objs : List gitobj), data.length < fuel →
      (parsetreeobjsLoop fuel data objs).isSome = true
  | 0, _, _, h => by omega
  | fuel + 1, data, objs, h => by
    rw [parsetreeobjsLoop]
    by_cases hd : data.length = 0
    · simp [hd]
    · have hne : data ≠ [] := by
        intro e; simp [e] at hd
      have hlen := Cut_rest_length data [TAB] hne (by simp)
      rcases hc : Cut data [TAB] with ⟨info, rest, found⟩
      rw [hc] at hlen
      simp only [] at hlen
      simp only [hd, if_false]
      split
      · rfl
      · split
        · rfl
        · split
          · rfl
          · split
            · rfl
            · split
              · rfl
              · split
                · rfl
                · rename_i _ hdr fst heq1 _ _ _ _ _ _ _ name rest1 hc2
                  simp only [Prod.mk.injEq] at heq1
                  obtain ⟨_, hfst, _⟩ := heq1
                  have h1 := Cut_rest_le fst [NUL]
                  rw [hc2] at h1
                  simp only [] at h1
                  exact parsetreeobjsLoop_isSome fuel rest1 _ (by rw [← hfst] at h1; omega)


theorem parsetreeobjsLoop_ne_panic :
    ∀ (fuel : Nat) (data : List Byte) (objs : List gitobj),
      parsetreeobjsLoop fuel data objs ≠ some .panic
  | 0, _, _ => by simp [parsetreeobjsLoop]
  | fuel + 1, data, objs => by
    rw [parsetreeobjsLoop]
    dsimp only
    repeat' split
    all_goals first
      | exact parsetreeobjsLoop_ne_panic fuel _ _
      | simp

theorem parsetreeobjs_ne_panic (data : List Byte) : parsetreeobjs data ≠ .panic := by
  have h1 := parsetreeobjsLoop_isSome (data.length + 1) data [] (by omega)
  have h2 := parsetreeobjsLoop_ne_panic (data.length + 1) data []
  unfold parsetreeobjs
  cases h : parsetreeobjsLoop (data.length + 1) data [] with
  | none => simp [h] at h1
  | some r =>
    intro hr
    simp only [] at hr
    exact h2 (by rw [h, hr])

theorem parsetreeobjsLoop_kinds :
    ∀ (fuel : Nat) (data : List Byte) (objs res : List gitobj),
      parsetreeobjsLoop fuel data objs = some (.ok res) →
      (∀ o ∈ objs, o.kind = gitblob ∨ o.kind = gittree) →
      ∀ o ∈ res, o.kind = gitblob ∨ o.kind = gittree
  | 0, _, _, _, h, _ => by simp [parsetreeobjsLoop] at h
  | fuel + 1, data, objs, res, h, hobjs => by
    rw [parsetreeobjsLoop] at h
    dsimp only at h
    repeat' split at h
    all_goals first
      | (simp only [Option.some.injEq, Outcome.ok.injEq] at h
         subst h
         exact hobjs)
      | (simp at h; done)
      | (rename_i hk _ _ _ _ _
         refine parsetreeobjsLoop_kinds fuel _ _ res h ?_
         intro o ho
         simp only [List.mem_append, List.mem_singleton] at ho
         rcases ho with ho | rfl
         · exact hobjs o ho
         · simp only
           by_contra hc
           simp only [not_or] at hc
           exact hk hc)

theorem parsetreeobjsLoop_bad (bad : List Byte) (objs : List gitobj) (fuel : Nat)
    (hne : bad ≠ [])
    (hbad : TAB ∉ bad ∨ ∃ info rest, bad = info ++ TAB :: rest ∧ TAB ∉ info ∧
      ((Split SP info).length ≠ 3 ∨ (ParseInt ((Split SP info).getD 0 []) 8).2 ≠ none ∨
        ((Split SP info).getD 1 [] ≠ gitblob ∧ (Split SP info).getD 1 [] ≠ gittree) ∨
        ((Split SP info).getD 2 []).length ≠ 40)) :
    ∃ e, parsetreeobjsLoop (fuel + 1) bad objs = some (.error e) := by
  have hlen : bad.length ≠ 0 := by
    intro h; exact hne (List.length_eq_zero.mp h)
  rw [parsetreeobjsLoop]
  simp only [hlen, if_false]
  rcases hbad with htab | ⟨info, rest, rfl, htab, hcond⟩
  · rw [Cut_byte_not_mem TAB bad htab]
    exact ⟨_, rfl⟩
  · rw [Cut_byte_append TAB info rest htab]
    simp only []
    split
    · exact ⟨_, rfl⟩
    · rename_i h3
      split
      · exact ⟨_, rfl⟩
      · rename_i mode hmode
        split
        · exact ⟨_, rfl⟩
        · rename_i hk
          split
          · exact ⟨_, rfl⟩
          · rename_i hid
            exfalso
            rcases hcond with h | h | h | h
            · exact h3 h
            · rw [hmode] at h
              exact h rfl
            · exact hk h
            · exact hid h


/-- Witness of C2: two entries; the name of the first has a space, a tab and
the byte `0xff`. -/
theorem parsetreeobjs_wellformed_witness :
    parsetreeobjs ([exampleEntry, exampleEntry2].map TreeEntry.encode).flatten =
      .ok [{ kind := gitblob, id := exampleId, tree := [], mode := 0o100644,
             data := [82, 69, 65, 68, 32, 77, 69, 9, 46, 255] },
           { kind := gittree, id := exampleId2, tree := [], mode := 0o040000,
             data := [115, 117, 98] }] :=
  parsetreeobjs_wellformed [exampleEntry, exampleEntry2] (by decide)

/-- C8.  After zero or more well-formed entries, `parsetreeobjs` returns an
error and no entries when the rest of the buffer is not empty and has no tab,
or when the metadata `info` before its first tab does not split into exactly
three space-separated fields, or its mode is not parseable as octal, or its
type is neither `"blob"` nor `"tree"`, or its id is not 40 bytes long;
and every entry of a successful result has kind blob or tree, never commit. -/
theorem parsetreeobjs_malformed :
    (∀ (es : List TreeEntry) (bad : List Byte), (∀ e ∈ es, e.WellFormed) → bad ≠ [] →
      (TAB ∉ bad ∨ ∃ info rest, bad = info ++ TAB :: rest ∧ TAB ∉ info ∧
        ((Split SP info).length ≠ 3 ∨ (ParseInt ((Split SP info).getD 0 []) 8).2 ≠ none ∨
          ((Split SP info).getD 1 [] ≠ gitblob ∧ (Split SP info).getD 1 [] ≠ gittree) ∨
          ((Split SP info).getD 2 []).length ≠ 40)) →
      ∃ e, parsetreeobjs ((es.map TreeEntry.encode).flatten ++ bad) = .error e) ∧
    (∀ (data : List Byte) (objs : List gitobj), parsetreeobjs data = .ok objs →
      ∀ o ∈ objs, (o.kind = gitblob ∨ o.kind = gittree) ∧ o.kind ≠ gitcommit) := by
  constructor
  · intro es bad hes hne hbad
    obtain ⟨fuel, hf⟩ := parsetreeobjs_after_entries es hes bad
    obtain ⟨e, he⟩ := parsetreeobjsLoop_bad bad (es.map TreeEntry.obj) fuel hne hbad
    exact ⟨e, by rw [hf, he]⟩
  · intro data objs h o ho
    have hk : o.kind = gitblob ∨ o.kind = gittree := by
      unfold parsetreeobjs at h
      cases hl : parsetreeobjsLoop (data.length + 1) data [] with
      | none => simp [hl] at h
      | some r =>
        rw [hl] at h
        simp only [] at h
        subst h
        exact parsetreeobjsLoop_kinds _ data [] objs hl (by simp) o ho
    refine ⟨hk, ?_⟩
    rcases hk with h1 | h1 <;> rw [h1] <;> decide

/-- Witness of C8: after one well-formed entry, the submodule entry
`"160000 commit bb…b\tsub\x00"` makes the parse fail; the entries of the
successful parse of two entries are a blob and a tree. -/
theorem parsetreeobjs_malformed_witness :
    (∃ e, parsetreeobjs (([exampleEntry].map TreeEntry.encode).flatten ++
      (([49, 54, 48, 48, 48, 48, 32] ++ gitcommit ++ [32] ++ exampleId2) ++
        TAB :: [115, 117, 98, 0])) = .error e) ∧
    (∀ o ∈ [exampleEntry.obj, exampleEntry2.obj],
      (o.kind = gitblob ∨ o.kind = gittree) ∧ o.kind ≠ gitcommit) :=
  ⟨parsetreeobjs_malformed.1 [exampleEntry] _ (by decide) (by decide)
      (Or.inr ⟨[49, 54, 48, 48, 48, 48, 32] ++ gitcommit ++ [32] ++ exampleId2,
        [115, 117, 98, 0], rfl, by decide, Or.inr (Or.inr (Or.inl (by decide)))⟩),
    parsetreeobjs_malformed.2 ([exampleEntry, exampleEntry2].map TreeEntry.encode).flatten _
      (by decide)⟩

theorem findSubtree_eq_find (part : GoString) (objs : List gitobj) :
    findSubtree part objs =
      (objs.find? fun o => decide (o.kind = gittree ∧ o.data = part)).map fun o => o.id := by
  induction objs with
  | nil => rfl
  | cons o objs ih =>
    by_cases hk : o.kind = gittree
    · by_cases hd : o.data = part
      · simp [findSubtree, List.find?, hk, hd]
      · simp [findSubtree, List.find?, hk, hd, ih]
    · simp [findSubtree, List.find?, hk, ih]

theorem findSubtree_none (part : GoString) (objs : List gitobj)
    (h : ∀ o ∈ objs, o.kind = gittree → o.data ≠ part) : findSubtree part objs = none := by
  induction objs with
  | nil => rfl
  | cons o objs ih =>
    have ih1 := ih (fun q hq => h q (by simp [hq]))
    by_cases hk : o.kind = gittree
    · have := h o (by simp) hk
      simp [findSubtree, hk, this, ih1]
    · simp [findSubtree, hk, ih1]

theorem treeobjs_ne_panic (g : gitfs) (t : GoString) : g.treeobjs t ≠ .panic := by
  unfold gitfs.treeobjs
  split
  · simp
  · exact parsetreeobjs_ne_panic _

theorem treelistingLoop_resolved (g : gitfs) (path c t t1 : GoString) (parts : List GoString)
    (hc : c ≠ []) (h : resolveComponent g t c = some t1) :
    treelistingLoop g path (c :: parts) t = treelistingLoop g path parts t1 := by
  unfold resolveComponent at h
  rw [treelistingLoop]
  cases ho : g.treeobjs t with
  | ok objs =>
    rw [ho] at h
    simp only [] at h
    rw [← findSubtree_eq_find] at h
    simp [hc, h]
  | error e => simp [ho] at h
  | panic => simp [ho] at h

theorem treelistingLoop_unresolved (g : gitfs) (path c t : GoString) (parts : List GoString)
    (hc : c ≠ []) (h : resolveComponent g t c = none) :
    ∃ e, treelistingLoop g path (c :: parts) t = .error e := by
  unfold resolveComponent at h
  rw [treelistingLoop]
  cases ho : g.treeobjs t with
  | ok objs =>
    rw [ho] at h
    simp only [] at h
    rw [← findSubtree_eq_find] at h
    exact ⟨.missingSubtree c path, by simp [hc, h]⟩
  | error e => exact ⟨e, by simp [hc]⟩
  | panic => exact absurd ho (treeobjs_ne_panic g t)

theorem treelistingLoop_append (g : gitfs) (path : GoString) (done more : List GoString)
    (t tcur : GoString) (h : resolvePath g t done = some tcur) :
    treelistingLoop g path (done ++ more) t = treelistingLoop g path more tcur := by
  induction done generalizing t with
  | nil =>
    simp only [resolvePath, Option.some.injEq] at h
    subst h
    rfl
  | cons c cs ih =>
    rw [resolvePath] at h
    by_cases hc : c = []
    · simp only [hc, if_true] at h
      subst hc
      rw [List.cons_append, treelistingLoop]
      simp only [if_true]
      exact ih t h
    · simp only [hc, if_false] at h
      cases hr : resolveComponent g t c with
      | none => simp [hr] at h
      | some t1 =>
        rw [hr] at h
        simp only [] at h
        rw [List.cons_append, treelistingLoop_resolved g path c t t1 _ hc hr]
        exact ih t1 h

/-- C10 (amended).  For every backend, tree `t` and path: when the components
before `c` (`done`) resolve from `t` to the tree `tcur` and the listing of
`tcur` has no entry of kind tree named `c` (so `c` is there as a blob at most,
next to trees of other names), `treelisting` fails with the error "Missing
subtree (c) in path", which is not `ENOENT`, and returns no entries: an entry
of kind blob is never followed as a directory. -/
theorem treelisting_blob_not_followed (gfs g : gitfs) (t path : GoString)
    (done rest : List GoString) (c tcur : GoString) (objs : List gitobj)
    (hsplit : Split SLASH path = done ++ c :: rest) (hdone : resolvePath g t done = some tcur)
    (hc : c ≠ []) (hobjs : g.treeobjs tcur = .ok objs)
    (hno : ∀ o ∈ objs, o.kind = gittree → o.data ≠ c) :
    gfs.treelisting g t path = .error (.missingSubtree c path) ∧
    gfs.treelisting g t path ≠ .error .ENOENT := by
  have hloop : treelistingLoop g path (Split SLASH path) t = .error (.missingSubtree c path) := by
    rw [hsplit, treelistingLoop_append g path done (c :: rest) t tcur hdone, treelistingLoop]
    simp [hc, hobjs, findSubtree_none c objs hno]
  have h : gfs.treelisting g t path = .error (.missingSubtree c path) := by
    simp [gitfs.treelisting, hloop]
  exact ⟨h, by rw [h]; simp⟩

/-- C9.  Path resolution composes: for every backend, every starting tree `t`
and all slash-free components `a` (not empty) and `b`, if resolving `a` from
`t` gives the tree `t1`, then `treelisting(t, "a/b")` and `treelisting(t1, "b")`
either both succeed with the same directory entries or both fail; and if
resolving `a` from `t` fails, `treelisting(t, "a/b")` fails. -/
theorem treelisting_composes (gfs g : gitfs) (t a b : GoString) (ha : a ≠ [])
    (hsa : SLASH ∉ a) (hsb : SLASH ∉ b) :
    (∀ t1, resolveComponent g t a = some t1 →
      (∃ ents, gfs.treelisting g t (a ++ SLASH :: b) = .ok ents ∧
        gfs.treelisting g t1 b = .ok ents) ∨
      ((∃ e, gfs.treelisting g t (a ++ SLASH :: b) = .error e) ∧
        ∃ e, gfs.treelisting g t1 b = .error e)) ∧
    (resolveComponent g t a = none →
      ∃ e, gfs.treelisting g t (a ++ SLASH :: b) = .error e) := by
  have hsplit : Split SLASH (a ++ SLASH :: b) = [a, b] := by
    rw [Split_append SLASH a b hsa, Split_not_mem SLASH b hsb]
  have hsplitb : Split SLASH b = [b] := Split_not_mem SLASH b hsb
  constructor
  · intro t1 h1
    have hl := treelistingLoop_resolved g (a ++ SLASH :: b) a t t1 [b] ha h1
    simp only [gitfs.treelisting, hsplit, hsplitb, hl]
    by_cases hb : b = []
    · subst hb
      simp only [treelistingLoop, if_true]
      cases ho : gfs.treeobjs t1 with
      | ok objs => exact Or.inl ⟨_, rfl, rfl⟩
      | error e => exact Or.inr ⟨⟨_, rfl⟩, ⟨_, rfl⟩⟩
      | panic => exact absurd ho (treeobjs_ne_panic gfs t1)
    · cases hr : resolveComponent g t1 b with
      | none =>
        obtain ⟨e1, he1⟩ := treelistingLoop_unresolved g (a ++ SLASH :: b) b t1 [] hb hr
        obtain ⟨e2, he2⟩ := treelistingLoop_unresolved g b b t1 [] hb hr
        rw [he1, he2]
        exact Or.inr ⟨⟨_, rfl⟩, ⟨_, rfl⟩⟩
      | some t2 =>
        rw [treelistingLoop_resolved g (a ++ SLASH :: b) b t1 t2 [] hb hr,
          treelistingLoop_resolved g b b t1 t2 [] hb hr]
        simp only [treelistingLoop]
        cases ho : gfs.treeobjs t2 with
        | ok objs => exact Or.inl ⟨_, rfl, rfl⟩
        | error e => exact Or.inr ⟨⟨_, rfl⟩, ⟨_, rfl⟩⟩
        | panic => exact absurd ho (treeobjs_ne_panic gfs t2)
  · intro h
    obtain ⟨e, he⟩ := treelistingLoop_unresolved g (a ++ SLASH :: b) a t [b] ha h
    exact ⟨e, by simp [gitfs.treelisting, hsplit, he]⟩


/-- Witness of C9 on the example backend: `a` resolves from `aa…a` to `bb…b`,
and both `treelisting(aa…a, "a/b")` and `treelisting(bb…b, "b")` list the one
file `g` of the tree `cc…c`. -/
theorem treelisting_composes_witness :
    ((∃ ents, exampleBackend.treelisting exampleBackend exampleId [97, 47, 98] = .ok ents ∧
        exampleBackend.treelisting exampleBackend exampleId2 [98] = .ok ents) ∨
      ((∃ e, exampleBackend.treelisting exampleBackend exampleId [97, 47, 98] = .error e) ∧
        ∃ e, exampleBackend.treelisting exampleBackend exampleId2 [98] = .error e)) ∧
    exampleBackend.treelisting exampleBackend exampleId [97, 47, 98] =
      .ok [{ Name := [103], Typ := .DT_File }] :=
  ⟨(treelisting_composes exampleBackend exampleBackend exampleId [97] [98]
      (by decide) (by decide) (by decide)).1 exampleId2 (by decide), by decide⟩

/-- Witness of C10 (amended) on the example backend: in the path `"a/c/x"` the
component `a` resolves to the tree `bb…b`, where `c` is a blob next to the
trees `d` and `b`. -/
theorem treelisting_blob_not_followed_witness :
    exampleBackend.treelisting exampleBackend exampleId [97, 47, 99, 47, 120] =
      .error (.missingSubtree [99] [97, 47, 99, 47, 120]) ∧
    exampleBackend.treelisting exampleBackend exampleId [97, 47, 99, 47, 120] ≠
      .error .ENOENT :=
  treelisting_blob_not_followed exampleBackend exampleBackend exampleId [97, 47, 99, 47, 120]
    [[97]] [[120]] [99] exampleId2
    [{ kind := gitblob, id := exampleId, tree := [], mode := 0o100644, data := [99] },
     { kind := gittree, id := exampleId, tree := [], mode := 0o040000, data := [100] },
     { kind := gittree, id := exampleId3, tree := [], mode := 0o040000, data := [98] }]
    (by decide) (by decide) (by decide) (by decide) (by decide)

/-- Counterexample to C10 as stated: the tree `aa…a` of the example backend
lists `b` as a blob only, next to the tree `a`; `treelisting` for the path
`"b"` fails, but with the error "Missing subtree (b) in b" and not with
NotFound (`ENOENT`), and `ReadDirAll` returns that same error. -/
theorem treelisting_blob_not_ENOENT :
    exampleBackend.treeobjs exampleId =
      .ok [{ kind := gitblob, id := exampleId, tree := [], mode := 0o100644, data := [102] },
           { kind := gitblob, id := exampleId, tree := [], mode := 0o100644, data := [98] },
           { kind := gittree, id := exampleId2, tree := [], mode := 0o040000, data := [97] }] ∧
    exampleBackend.treelisting exampleBackend exampleId [98] =
      .error (.missingSubtree [98] [98]) ∧
    exampleBackend.treelisting exampleBackend exampleId [98] ≠ .error .ENOENT ∧
    dir.ReadDirAll exampleBackend { tree := exampleId, path := [98] } ≠ .error .ENOENT := by
  decide

theorem direntType_eq_presentation (mode : Int) : direntType mode = presentation mode := by
  unfold direntType presentation
  by_cases h1 : mode = 0o100644
  · subst h1; decide
  · by_cases h2 : mode = 0o100755
    · subst h2; decide
    · simp only [h1, h2, or_self, if_false]
      by_cases h3 : mode = 0o120000
      · subst h3; decide
      · simp only [h3, if_false]

theorem treelistingLoop_of_resolvePath (g : gitfs) (path : GoString) (parts : List GoString)
    (t tcur : GoString) (h : resolvePath g t parts = some tcur) :
    treelistingLoop g path parts t = .ok tcur := by
  have := treelistingLoop_append g path parts [] t tcur h
  rw [List.append_nil] at this
  rw [this, treelistingLoop]

/-- C11.  For every backend, every tree `t` and path that resolves to the
effective tree `tcur` (`t` itself for the empty path), when the listing of
`tcur` parses to the entries `objs`, `treelisting` succeeds and its listing is
`objs` entry by entry, in the same order and of the same length: the i-th
directory entry has the name bytes of the i-th entry and the kind directory
for mode `0o040000`, symlink for `0o120000` and regular file for every other
mode, `0o100644`, `0o100755` and unrecognized ones alike; no mode fails the
listing or drops an entry. -/
theorem treelisting_entries (gfs g : gitfs) (t path tcur : GoString) (objs : List gitobj)
    (hres : resolvePath g t (Split SLASH path) = some tcur)
    (hobjs : gfs.treeobjs tcur = .ok objs) :
    gfs.treelisting g t path =
      .ok (objs.map fun o => { Name := o.data, Typ := presentation o.mode }) ∧
    (objs.map fun o => ({ Name := o.data, Typ := presentation o.mode } : Dirent)).length =
      objs.length ∧
    presentation 0o040000 = .DT_Dir ∧ presentation 0o120000 = .DT_Link ∧
    presentation 0o100644 = .DT_File ∧ presentation 0o100755 = .DT_File ∧
    ∀ mode : Int, mode ≠ 0o040000 → mode ≠ 0o120000 → presentation mode = .DT_File := by
  refine ⟨?_, by simp, by decide, by decide, by decide, by decide, ?_⟩
  · simp only [gitfs.treelisting, treelistingLoop_of_resolvePath g path _ t tcur hres, hobjs,
      direntType_eq_presentation]
  · intro mode h1 h2
    simp [presentation, h1, h2]

/-- Witness of C11 on the second example backend: the tree `aa…a` lists the
file `f`, the directory `a`, the entry `w` of the unrecognized mode `0o100666`
and the symlink `l`. -/
theorem treelisting_entries_witness :
    exampleBackend2.treelisting exampleBackend2 exampleId [] =
      .ok [{ Name := [102], Typ := .DT_File }, { Name := [97], Typ := .DT_Dir },
           { Name := [119], Typ := .DT_File }, { Name := [108], Typ := .DT_Link }] :=
  (treelisting_entries exampleBackend2 exampleBackend2 exampleId [] exampleId
    [{ kind := gitblob, id := exampleId3, tree := [], mode := 0o100644, data := [102] },
     { kind := gittree, id := exampleId2, tree := [], mode := 0o040000, data := [97] },
     { kind := gitblob, id := exampleId3, tree := [], mode := 0o100666, data := [119] },
     { kind := gitblob, id := exampleId3, tree := [], mode := 0o120000, data := [108] }]
    (by decide) (by decide)).1

theorem rootlistingLoop_eq (objs : List gitobj) (ents : List Dirent) :
    rootlistingLoop objs ents = ents ++ rootEntries objs := by
  induction objs generalizing ents with
  | nil => simp [rootlistingLoop, rootEntries]
  | cons o objs ih => simp [rootlistingLoop, rootEntries, ih]

theorem rootEntries_length (objs : List gitobj) :
    (rootEntries objs).length = 2 * objs.length := by
  induction objs with
  | nil => rfl
  | cons o objs ih =>
    simp only [rootEntries, List.length_cons, ih]
    omega

theorem rootlisting_of_revlistall (gfs : gitfs) :
    gfs.rootlisting =
      match gfs.revlistall with
      | .ok objs => .ok (rootEntries objs)
      | .error e => .error e
      | .panic => .panic := by
  unfold gitfs.rootlisting
  cases gfs.revlistall <;> simp [rootlistingLoop_eq]

theorem ReadDirAll_Root (gfs : gitfs) : gfs.Root.ReadDirAll gfs = gfs.rootlisting := by
  simp [dir.ReadDirAll, gitfs.Root]

/-- C12.  For every backend: when `git rev-list --all` and `git cat-file
--batch` succeed and `parserevlist` decodes the batch listing to the commit
records `objs`, the root directory listing (`rootlisting`, and `ReadDirAll` on
the root) has exactly `2 * n` entries, in order the commit id (a symlink) and
the tree id (a directory) of each record; when a backend call fails or the
parser returns an error, the listing fails with that error and no entries (and
a panic of the parser is a panic of the listing). -/
theorem rootlisting_entries (gfs : gitfs) :
    (∀ (revlist info : Slice) (objs : List gitobj),
      gfs.git [revListArg, allArg] = .ok revlist →
      gfs.gitstdin (some revlist.elems) [catFileArg, batchArg] = .ok info →
      parserevlist info = .ok objs →
      gfs.rootlisting = .ok (rootEntries objs) ∧
      gfs.Root.ReadDirAll gfs = .ok (rootEntries objs) ∧
      (rootEntries objs).length = 2 * objs.length) ∧
    (∀ code, gfs.git [revListArg, allArg] = .error code →
      gfs.Root.ReadDirAll gfs = .error (.exec code)) ∧
    (∀ (revlist : Slice) code, gfs.git [revListArg, allArg] = .ok revlist →
      gfs.gitstdin (some revlist.elems) [catFileArg, batchArg] = .error code →
      gfs.Root.ReadDirAll gfs = .error (.exec code)) ∧
    (∀ (revlist info : Slice) e, gfs.git [revListArg, allArg] = .ok revlist →
      gfs.gitstdin (some revlist.elems) [catFileArg, batchArg] = .ok info →
      parserevlist info = .error e → gfs.Root.ReadDirAll gfs = .error e) ∧
    (∀ (revlist info : Slice), gfs.git [revListArg, allArg] = .ok revlist →
      gfs.gitstdin (some revlist.elems) [catFileArg, batchArg] = .ok info →
      parserevlist info = .panic → gfs.Root.ReadDirAll gfs = .panic) := by
  refine ⟨?_, ?_, ?_, ?_, ?_⟩
  · intro revlist info objs h1 h2 h3
    have hr : gfs.revlistall = .ok objs := by simp [gitfs.revlistall, h1, h2, h3]
    have hl : gfs.rootlisting = .ok (rootEntries objs) := by
      rw [rootlisting_of_revlistall, hr]
    exact ⟨hl, by rw [ReadDirAll_Root, hl], rootEntries_length objs⟩
  · intro code h1
    have hr : gfs.revlistall = .error (.exec code) := by simp [gitfs.revlistall, h1]
    rw [ReadDirAll_Root, rootlisting_of_revlistall, hr]
  · intro revlist code h1 h2
    have hr : gfs.revlistall = .error (.exec code) := by simp [gitfs.revlistall, h1, h2]
    rw [ReadDirAll_Root, rootlisting_of_revlistall, hr]
  · intro revlist info e h1 h2 h3
    have hr : gfs.revlistall = .error e := by simp [gitfs.revlistall, h1, h2, h3]
    rw [ReadDirAll_Root, rootlisting_of_revlistall, hr]
  · intro revlist info h1 h2 h3
    have hr : gfs.revlistall = .panic := by simp [gitfs.revlistall, h1, h2, h3]
    rw [ReadDirAll_Root, rootlisting_of_revlistall, hr]

/-- Witness of C12 on the second example backend: one commit `aa…a` with the
header `"tree T\n\n"` gives a listing with an entry named `aa…a` and an entry
named `T`; on the first example backend `git rev-list` fails and so does the
listing. -/
theorem rootlisting_entries_witness :
    exampleBackend2.Root.ReadDirAll exampleBackend2 =
      .ok [{ Name := exampleId, Typ := .DT_Link }, { Name := [84], Typ := .DT_Dir }] ∧
    exampleBackend.Root.ReadDirAll exampleBackend = .error (.exec 128) :=
  ⟨((rootlisting_entries exampleBackend2).1 ⟨exampleId ++ [10], []⟩
      ⟨exampleRecord.encode, [0, 0]⟩
      [{ kind := gitcommit, id := exampleId, tree := [84], mode := 0, data := [] }]
      (by decide) (by decide) (by decide)).2.1,
    (rootlisting_entries exampleBackend).2.1 128 (by decide)⟩

/-- C13.  `Lookup` on the root directory (empty tree and empty path) succeeds
exactly when the name is 40 bytes long, and then yields the directory node
with that name as tree and an empty path; for a name of any other length it
fails with `ENOENT`; the result is the same under every backend, so that no
backend query decides it. -/
theorem root_Lookup (gfs gfs1 : gitfs) (name : GoString) :
    (name.length = 40 → gfs.Root.Lookup gfs name = .ok (.dir { tree := name, path := [] })) ∧
    (name.length ≠ 40 → gfs.Root.Lookup gfs name = .error .ENOENT) ∧
    ((∃ node, gfs.Root.Lookup gfs name = .ok node) ↔ name.length = 40) ∧
    gfs.Root.Lookup gfs name = gfs1.Root.Lookup gfs1 name := by
  by_cases h : name.length = 40
  · simp [dir.Lookup, gitfs.Root, h]
  · simp [dir.Lookup, gitfs.Root, h]

/-- Witness of C13: the name `aa…a` of 40 bytes and the name `T` of one byte. -/
theorem root_Lookup_witness :
    exampleBackend.Root.Lookup exampleBackend exampleId =
      .ok (.dir { tree := exampleId, path := [] }) ∧
    exampleBackend.Root.Lookup exampleBackend [84] = .error .ENOENT :=
  ⟨(root_Lookup exampleBackend exampleBackend2 exampleId).1 (by decide),
    (root_Lookup exampleBackend exampleBackend2 [84]).2.1 (by decide)⟩

theorem parserevlistLoop_no_newline (spare s : List Byte) (objs : List gitobj) (fuel : Nat)
    (hs : LF ∉ s) : parserevlistLoop spare (fuel + 1) s objs = some (.ok objs) := by
  rw [parserevlistLoop, Cut_byte_not_mem LF s hs]
  simp

/-- C18.  `parserevlist` never infers a record from a short trailing line: for
every buffer made of well-formed records and every tail `s` without a newline,
`parserevlist` returns on the buffer followed by `s` exactly the records that
it returns on the buffer alone; and on the empty buffer it returns the empty
list without error. -/
theorem parserevlist_trailing (rs : List RevRecord) (s spare : List Byte)
    (hrs : ∀ r ∈ rs, r.WellFormed) (hs : LF ∉ s) :
    parserevlist ⟨(rs.map RevRecord.encode).flatten ++ s, spare⟩ =
      parserevlist ⟨(rs.map RevRecord.encode).flatten, spare⟩ ∧
    parserevlist ⟨(rs.map RevRecord.encode).flatten ++ s, spare⟩ =
      .ok (rs.map RevRecord.obj) ∧
    parserevlist ⟨[], spare⟩ = .ok [] := by
  have h1 : parserevlist ⟨(rs.map RevRecord.encode).flatten ++ s, spare⟩ =
      .ok (rs.map RevRecord.obj) := by
    obtain ⟨fuel, hf⟩ := parserevlist_after_records rs hrs spare s
    rw [hf, parserevlistLoop_no_newline spare s _ fuel hs]
  have h2 : parserevlist ⟨(rs.map RevRecord.encode).flatten, spare⟩ =
      .ok (rs.map RevRecord.obj) := by
    obtain ⟨fuel, hf⟩ := parserevlist_after_records rs hrs spare []
    rw [List.append_nil] at hf
    rw [hf, parserevlistLoop_no_newline spare [] _ fuel (by simp)]
  refine ⟨by rw [h1, h2], h1, ?_⟩
  simp [parserevlist, parserevlistLoop]

/-- Witness of C18: two records followed by the tail `"xyz commit 3"`, which
has no newline. -/
theorem parserevlist_trailing_witness :
    parserevlist ⟨([exampleRecord, exampleRecord2].map RevRecord.encode).flatten ++
        [120, 121, 122, 32, 99, 111, 109, 109, 105, 116, 32, 51], [0]⟩ =
      .ok [exampleRecord.obj, exampleRecord2.obj] :=
  (parserevlist_trailing [exampleRecord, exampleRecord2]
    [120, 121, 122, 32, 99, 111, 109, 109, 105, 116, 32, 51] [0] (by
      intro r hr
      simp only [List.mem_cons, List.mem_singleton, List.not_mem_nil, or_false] at hr
      rcases hr with rfl | rfl
      · exact exampleRecord_wellFormed
      · exact exampleRecord2_wellFormed) (by decide)).2.1

theorem strip_newline (digits elems : List Byte) (hnum : isNumeral 10 digits)
    (hd : elems = digits ∨ elems = digits ++ [LF]) :
    (if elems.length > 0 ∧ elems.getLast? = some LF then elems.dropLast else elems) = digits := by
  rcases hd with h | h
  · subst h
    have hl : elems.getLast? ≠ some LF := by
      intro hl
      have hm : LF ∈ elems := List.mem_of_getLast?_eq_some hl
      exact numeral_not_mem 10 elems LF hnum (by decide) hm
    simp [hl]
  · subst h
    simp

theorem nodefor_ok (g : gitfs) (sha path name digits : GoString) (data sdata : Slice)
    (e : gitobj)
    (hq : g.git [lsTreeArg, zArg, sha, if path ≠ [] then path ++ SLASH :: name else name] =
      .ok data)
    (hp : parsetreeobjs data.elems = .ok [e])
    (hs : g.git [catFileArg, sArg, e.id] = .ok sdata)
    (hd : sdata.elems = digits ∨ sdata.elems = digits ++ [LF])
    (hnum : isNumeral 10 digits) (hval : numeralValue 10 digits < 2 ^ 63) :
    g.nodefor sha path name =
      if e.mode = 0o040000 then
        .ok (.dir { tree := sha, path := if path ≠ [] then path ++ SLASH :: name else name })
      else
        .ok (.file { name := name, id := e.id, mode := e.mode,
                     size := numeralValue 10 digits, data := [] }) := by
  have hstrip := strip_newline digits sdata.elems hnum hd
  have hparse := ParseInt_numeral 10 (by omega) (by omega) digits hnum hval
  have hsize : ((numeralValue 10 digits : Int) % 2 ^ 64).toNat = numeralValue 10 digits := by
    omega
  unfold gitfs.nodefor
  simp only [hq, hp, hs, hstrip, hparse, hsize]

theorem Lookup_of_nodefor (gfs : gitfs) (sha path name : GoString) (hsha : sha ≠ []) :
    dir.Lookup gfs { tree := sha, path := path } name =
      match gfs.nodefor sha path name with
      | .ok node => .ok node
      | .error _ => .error .ENOENT
      | .panic => .panic := by
  simp [dir.Lookup, hsha]

/-- C14.  For every backend `g`, tree id `sha`, relative path and name: when
the targeted query for `path/name` (just `name` when the path is empty)
returns bytes that parse to exactly one entry `e`, and the size query for
`e.id` returns a decimal numeral `digits`, with or without one newline after
it, `nodefor` succeeds (and so does `Lookup` on the directory `(sha, path)`):
for the mode `0o040000` the result is the directory node with tree `sha` (not
`e.id`) and path `path/name`, otherwise it is the leaf file with this name,
the id and the mode of `e`, and the size that the backend reported. -/
theorem nodefor_entry (g : gitfs) (sha path name digits : GoString) (data sdata : Slice)
    (e : gitobj)
    (hq : g.git [lsTreeArg, zArg, sha, if path ≠ [] then path ++ SLASH :: name else name] =
      .ok data)
    (hp : parsetreeobjs data.elems = .ok [e])
    (hs : g.git [catFileArg, sArg, e.id] = .ok sdata)
    (hd : sdata.elems = digits ∨ sdata.elems = digits ++ [LF])
    (hnum : isNumeral 10 digits) (hval : numeralValue 10 digits < 2 ^ 63) :
    (e.mode = 0o040000 →
      g.nodefor sha path name =
        .ok (.dir { tree := sha, path := if path ≠ [] then path ++ SLASH :: name else name })) ∧
    (e.mode ≠ 0o040000 →
      g.nodefor sha path name =
        .ok (.file { name := name, id := e.id, mode := e.mode,
                     size := numeralValue 10 digits, data := [] })) ∧
    (sha ≠ [] →
      dir.Lookup g { tree := sha, path := path } name = g.nodefor sha path name) := by
  have h := nodefor_ok g sha path name digits data sdata e hq hp hs hd hnum hval
  refine ⟨?_, ?_, ?_⟩
  · intro hm
    rw [h, if_pos hm]
  · intro hm
    rw [h, if_neg hm]
  · intro hsha
    rw [Lookup_of_nodefor g sha path name hsha, h]
    by_cases hm : e.mode = 0o040000 <;> simp [hm]

/-- Witness of C14 on the second example backend: below the tree `aa…a`, the
name `f` is a blob of 12 bytes (the size query prints `"12\n"`) and the name
`a` is a directory. -/
theorem nodefor_entry_witness :
    exampleBackend2.nodefor exampleId [] [102] =
      .ok (.file { name := [102], id := exampleId3, mode := 0o100644, size := 12,
                   data := [] }) ∧
    exampleBackend2.nodefor exampleId [] [97] =
      .ok (.dir { tree := exampleId, path := [97] }) :=
  ⟨(nodefor_entry exampleBackend2 exampleId [] [102] [49, 50]
      ⟨[49, 48, 48, 54, 52, 52, 32] ++ gitblob ++ [32] ++ exampleId3 ++ [9, 102, 0], []⟩
      ⟨[49, 50, 10], []⟩
      { kind := gitblob, id := exampleId3, tree := [], mode := 0o100644, data := [102] }
      (by decide) (by decide) (by decide) (Or.inr (by decide)) (by decide) (by decide)).2.1
      (by decide),
    (nodefor_entry exampleBackend2 exampleId [] [97] [54, 52]
      ⟨[48, 52, 48, 48, 48, 48, 32] ++ gittree ++ [32] ++ exampleId2 ++ [9, 97, 0], []⟩
      ⟨[54, 52, 10], []⟩
      { kind := gittree, id := exampleId2, tree := [], mode := 0o040000, data := [97] }
      (by decide) (by decide) (by decide) (Or.inr (by decide)) (by decide) (by decide)).1
      (by decide)⟩

/-- C15.  `Lookup` on a tree directory (`nodefor`) fails with `ENOENT`, and
returns no node, whenever the targeted query fails, or the parse of its output
fails, or the output parses to zero entries or to more than one entry, or the
size query for the one entry fails or prints something that is not a number. -/
theorem nodefor_ENOENT (g : gitfs) (sha path name : GoString)
    (hfail :
      (∃ code, g.git [lsTreeArg, zArg, sha,
        if path ≠ [] then path ++ SLASH :: name else name] = .error code) ∨
      ∃ data, g.git [lsTreeArg, zArg, sha,
          if path ≠ [] then path ++ SLASH :: name else name] = .ok data ∧
        ((∃ e, parsetreeobjs data.elems = .error e) ∨
         ∃ objs, parsetreeobjs data.elems = .ok objs ∧
           (objs.length ≠ 1 ∨
            ∃ o, objs = [o] ∧
              ((∃ code, g.git [catFileArg, sArg, o.id] = .error code) ∨
               ∃ sdata, g.git [catFileArg, sArg, o.id] = .ok sdata ∧
                 (ParseInt (if sdata.elems.length > 0 ∧ sdata.elems.getLast? = some LF
                    then sdata.elems.dropLast else sdata.elems) 10).2 ≠ none)))) :
    g.nodefor sha path name = .error .ENOENT ∧
    (sha ≠ [] → dir.Lookup g { tree := sha, path := path } name = .error .ENOENT) := by
  have h : g.nodefor sha path name = .error .ENOENT := by
    unfold gitfs.nodefor
    rcases hfail with ⟨code, h1⟩ | ⟨data, h1, hrest⟩
    · simp only [h1]
    · rcases hrest with ⟨e, h2⟩ | ⟨objs, h2, hrest⟩
      · simp only [h1, h2]
      · rcases hrest with hlen | ⟨o, rfl, hrest⟩
        · simp only [h1, h2]
          split
          · simp at hlen
          · rfl
        · rcases hrest with ⟨code, h3⟩ | ⟨sdata, h3, h4⟩
          · simp only [h1, h2, h3]
          · simp only [h1, h2, h3]
            split
            · rfl
            · rename_i heq
              rw [heq] at h4
              exact absurd rfl h4
  refine ⟨h, fun hsha => ?_⟩
  rw [Lookup_of_nodefor g sha path name hsha, h]

/-- Witness of C15 on the second example backend, below the tree `aa…a`: the
query for `z` fails, the query for `n` finds no entry, the query for `m` finds
two, and the size of the entry `u` is not a number. -/
theorem nodefor_ENOENT_witness :
    dir.Lookup exampleBackend2 { tree := exampleId, path := [] } [122] = .error .ENOENT ∧
    dir.Lookup exampleBackend2 { tree := exampleId, path := [] } [110] = .error .ENOENT ∧
    dir.Lookup exampleBackend2 { tree := exampleId, path := [] } [109] = .error .ENOENT ∧
    dir.Lookup exampleBackend2 { tree := exampleId, path := [] } [117] = .error .ENOENT :=
  ⟨(nodefor_ENOENT exampleBackend2 exampleId [] [122] (Or.inl ⟨128, by decide⟩)).2 (by decide),
    (nodefor_ENOENT exampleBackend2 exampleId [] [110]
      (Or.inr ⟨⟨[], []⟩, by decide, Or.inr ⟨[], by decide, Or.inl (by decide)⟩⟩)).2 (by decide),
    (nodefor_ENOENT exampleBackend2 exampleId [] [109]
      (Or.inr ⟨⟨[49, 48, 48, 54, 52, 52, 32] ++ gitblob ++ [32] ++ exampleId3 ++ [9, 109, 0] ++
          [49, 48, 48, 54, 52, 52, 32] ++ gitblob ++ [32] ++ exampleId3 ++ [9, 109, 0], []⟩,
        by decide, Or.inr
        ⟨[{ kind := gitblob, id := exampleId3, tree := [], mode := 0o100644, data := [109] },
          { kind := gitblob, id := exampleId3, tree := [], mode := 0o100644, data := [109] }],
          by decide, Or.inl (by decide)⟩⟩)).2 (by decide),
    (nodefor_ENOENT exampleBackend2 exampleId [] [117]
      (Or.inr ⟨⟨[49, 48, 48, 54, 52, 52, 32] ++ gitblob ++ [32] ++ exampleId ++ [9, 117, 0], []⟩,
        by decide, Or.inr
        ⟨[{ kind := gitblob, id := exampleId, tree := [], mode := 0o100644, data := [117] }],
          by decide, Or.inr
          ⟨{ kind := gitblob, id := exampleId, tree := [], mode := 0o100644, data := [117] },
            rfl, Or.inr ⟨⟨[63, 10], []⟩, by decide, by decide⟩⟩⟩⟩)).2 (by decide)⟩

theorem parserevlistLoop_error (spare : List Byte) :
    ∀ (fuel : Nat) (data : List Byte) (objs : List gitobj) (e : GoError),
      parserevlistLoop spare fuel data objs = some (.error e) → e.isFormatError = true
  | 0, _, _, _, h => by simp [parserevlistLoop] at h
  | fuel + 1, data, objs, e, h => by
    rw [parserevlistLoop] at h
    dsimp only at h
    repeat' split at h
    all_goals first
      | exact parserevlistLoop_error spare fuel _ _ e h
      | (simp only [Option.some.injEq, Outcome.error.injEq] at h
         subst h
         rfl)
      | simp at h

theorem parserevlist_error (data : Slice) (e : GoError) (h : parserevlist data = .error e) :
    e.isFormatError = true := by
  unfold parserevlist at h
  cases hl : parserevlistLoop data.spare (data.elems.length + 1) data.elems [] with
  | none => simp [hl] at h
  | some r =>
    rw [hl] at h
    simp only [] at h
    subst h
    exact parserevlistLoop_error _ _ _ _ e hl

theorem parsetreeobjsLoop_error :
    ∀ (fuel : Nat) (data : List Byte) (objs : List gitobj) (e : GoError),
      parsetreeobjsLoop fuel data objs = some (.error e) → e.isFormatError = true
  | 0, _, _, _, h => by simp [parsetreeobjsLoop] at h
  | fuel + 1, data, objs, e, h => by
    rw [parsetreeobjsLoop] at h
    dsimp only at h
    repeat' split at h
    all_goals first
      | exact parsetreeobjsLoop_error fuel _ _ e h
      | (simp only [Option.some.injEq, Outcome.error.injEq] at h
         subst h
         rfl)
      | simp at h

theorem parsetreeobjs_error (data : List Byte) (e : GoError)
    (h : parsetreeobjs data = .error e) : e.isFormatError = true := by
  unfold parsetreeobjs at h
  cases hl : parsetreeobjsLoop (data.length + 1) data [] with
  | none => simp [hl] at h
  | some r =>
    rw [hl] at h
    simp only [] at h
    subst h
    exact parsetreeobjsLoop_error _ _ _ e hl

theorem treeobjs_error (g : gitfs) (t : GoString) (e : GoError) (h : g.treeobjs t = .error e) :
    e.isFormatError = true ∨ e.isBackendError = true := by
  unfold gitfs.treeobjs at h
  split at h
  · simp only [Outcome.error.injEq] at h
    subst h
    exact Or.inr rfl
  · exact Or.inl (parsetreeobjs_error _ e h)

theorem treelistingLoop_error (g : gitfs) (path : GoString) (parts : List GoString)
    (t : GoString) (e : GoError) (h : treelistingLoop g path parts t = .error e) :
    e.isFormatError = true ∨ e.isBackendError = true ∨ e.isMissing = true := by
  induction parts generalizing t with
  | nil => simp [treelistingLoop] at h
  | cons p ps ih =>
    rw [treelistingLoop] at h
    split at h
    · exact ih t h
    · split at h
      · rename_i e1 he
        simp only [Outcome.error.injEq] at h
        subst h
        rcases treeobjs_error g t e1 he with h1 | h1
        · exact Or.inl h1
        · exact Or.inr (Or.inl h1)
      · simp at h
      · split at h
        · exact ih _ h
        · simp only [Outcome.error.injEq] at h
          subst h
          exact Or.inr (Or.inr rfl)

theorem treelisting_error (gfs g : gitfs) (t path : GoString) (e : GoError)
    (h : gfs.treelisting g t path = .error e) :
    e.isFormatError = true ∨ e.isBackendError = true ∨ e.isMissing = true := by
  unfold gitfs.treelisting at h
  split at h
  · rename_i e1 he
    simp only [Outcome.error.injEq] at h
    subst h
    exact treelistingLoop_error g path _ t e1 he
  · simp at h
  · split at h
    · simp only [Outcome.error.injEq] at h
      subst h
      exact Or.inr (Or.inr rfl)
    · simp at h
    · simp at h

theorem revlistall_error (g : gitfs) (e : GoError) (h : g.revlistall = .error e) :
    e.isFormatError = true ∨ e.isBackendError = true := by
  unfold gitfs.revlistall at h
  split at h
  · simp only [Outcome.error.injEq] at h
    subst h
    exact Or.inr rfl
  · split at h
    · simp only [Outcome.error.injEq] at h
      subst h
      exact Or.inr rfl
    · exact Or.inl (parserevlist_error _ e h)

theorem rootlisting_error (gfs : gitfs) (e : GoError) (h : gfs.rootlisting = .error e) :
    e.isFormatError = true ∨ e.isBackendError = true := by
  rw [rootlisting_of_revlistall] at h
  cases hr : gfs.revlistall with
  | ok objs => simp [hr] at h
  | panic => simp [hr] at h
  | error e1 =>
    rw [hr] at h
    simp only [Outcome.error.injEq] at h
    subst h
    exact revlistall_error gfs e1 hr

theorem Lookup_error (gfs : gitfs) (d : dir) (name : GoString) (e : GoError)
    (h : d.Lookup gfs name = .error e) : e = .ENOENT := by
  unfold dir.Lookup at h
  repeat' split at h
  all_goals first
    | (simp at h; done)
    | (simp only [Outcome.error.injEq] at h
       exact h.symm)


/-- C16 (amended).  Error collapsing at the filesystem boundary, for every
directory node and every backend: an error that `dir.Lookup` returns is
`ENOENT` and nothing else; an error that `dir.ReadDirAll` returns for the root
or for a directory with a tree id of 40 bytes is the error of `rootlisting` or
`treelisting` as it is, a FormatError of a parser, a failed backend query or a
"Missing subtree"/"Missing tree" error, and never `ENOENT`; `dir.ReadDirAll`
returns `ENOENT` only for a directory whose tree id is neither empty nor 40
bytes long. -/
theorem boundary_errors (gfs : gitfs) (d : dir) :
    (∀ name e, d.Lookup gfs name = .error e → e = .ENOENT) ∧
    (∀ e, d.ReadDirAll gfs = .error e → d.tree = [] ∨ d.tree.length = 40 →
      e ≠ .ENOENT ∧
      (e.isFormatError = true ∨ e.isBackendError = true ∨ e.isMissing = true) ∧
      (d.tree = [] → gfs.rootlisting = .error e) ∧
      (d.tree ≠ [] → gfs.treelisting gfs d.tree d.path = .error e)) ∧
    (d.tree ≠ [] → d.tree.length ≠ 40 → d.ReadDirAll gfs = .error .ENOENT) := by
  refine ⟨fun name e h => Lookup_error gfs d name e h, ?_, ?_⟩
  · intro e h hd
    have hpass : (d.tree = [] → gfs.rootlisting = .error e) ∧
        (d.tree ≠ [] → gfs.treelisting gfs d.tree d.path = .error e) := by
      unfold dir.ReadDirAll at h
      by_cases ht : d.tree = []
      · simp only [ht, if_true] at h
        exact ⟨fun _ => h, fun h0 => absurd ht h0⟩
      · have h40 : d.tree.length = 40 := by
          rcases hd with h0 | h0
          · exact absurd h0 ht
          · exact h0
        simp only [ht, h40, if_true, if_false] at h
        exact ⟨fun h0 => absurd h0 ht, fun _ => h⟩
    have hkind : e.isFormatError = true ∨ e.isBackendError = true ∨ e.isMissing = true := by
      by_cases ht : d.tree = []
      · rcases rootlisting_error gfs e (hpass.1 ht) with h1 | h1
        · exact Or.inl h1
        · exact Or.inr (Or.inl h1)
      · exact treelisting_error gfs gfs d.tree d.path e (hpass.2 ht)
    have hne : e ≠ .ENOENT := by
      intro he
      subst he
      simp [GoError.isFormatError, GoError.isBackendError, GoError.isMissing] at hkind
    exact ⟨hne, hkind, hpass⟩
  · intro h1 h2
    simp [dir.ReadDirAll, h1, h2]


/-- Witness of C16 (amended) on the second example backend: a `Lookup` whose
targeted query fails returns `ENOENT`; `ReadDirAll` on a directory below
`aa…a` whose path has the missing component `x` returns an error that is not
`ENOENT`; `ReadDirAll` on a directory with the tree id `T` returns `ENOENT`. -/
theorem boundary_errors_witness :
    GoError.ENOENT = .ENOENT ∧
    GoError.missingSubtree [120] [120] ≠ .ENOENT ∧
    dir.ReadDirAll exampleBackend2 { tree := [84], path := [] } = .error .ENOENT :=
  ⟨(boundary_errors exampleBackend2 { tree := exampleId, path := [] }).1 [122] .ENOENT
      (by decide),
    ((boundary_errors exampleBackend2 { tree := exampleId, path := [120] }).2.1
      (.missingSubtree [120] [120]) (by decide) (Or.inr (by decide))).1,
    (boundary_errors exampleBackend2 { tree := [84], path := [] }).2.2 (by decide) (by decide)⟩

/-- Counterexample to C16 as stated: `dir.ReadDirAll` fails with an error that
is not `ENOENT` for a missing path component (the error "Missing subtree"), for
a backend failure (exit code 128 of `git rev-list`) and for a FormatError of a
parser (the malformed listing of the tree `bb…b`, met while resolving
`"a/x"`). -/
theorem ReadDirAll_not_ENOENT :
    dir.ReadDirAll exampleBackend2 { tree := exampleId, path := [120] } =
      .error (.missingSubtree [120] [120]) ∧
    dir.ReadDirAll exampleBackend { tree := [], path := [] } = .error (.exec 128) ∧
    dir.ReadDirAll exampleBackend2 { tree := exampleId, path := [97, 47, 120] } =
      .error .noTabInInfoline := by
  decide

theorem treelistingLoop_filter (g : gitfs) (path : GoString) (parts : List GoString)
    (t : GoString) :
    treelistingLoop g path parts t =
      treelistingLoop g path (parts.filter fun c => decide (c ≠ [])) t := by
  induction parts generalizing t with
  | nil => rfl
  | cons p ps ih =>
    by_cases hp : p = []
    · subst hp
      rw [treelistingLoop]
      simp only [if_true]
      rw [ih t]
      simp
    · have hf : List.filter (fun c => decide (c ≠ [])) (p :: ps) =
          p :: List.filter (fun c => decide (c ≠ [])) ps := by
        simp [hp]
      rw [hf, treelistingLoop, treelistingLoop]
      simp only [hp, if_false]
      cases g.treeobjs t with
      | error e => rfl
      | panic => rfl
      | ok objs =>
        simp only []
        cases findSubtree p objs with
        | none => rfl
        | some id => exact ih id

theorem treelistingLoop_sameUpToPath (g : gitfs) (p q : GoString) (parts : List GoString)
    (t : GoString) :
    sameUpToPath p q (treelistingLoop g p parts t) (treelistingLoop g q parts t) := by
  induction parts generalizing t with
  | nil => exact Or.inl ⟨t, rfl, rfl⟩
  | cons c cs ih =>
    rw [treelistingLoop, treelistingLoop]
    by_cases hc : c = []
    · simp only [hc, if_true]
      exact ih t
    · simp only [hc, if_false]
      cases ho : g.treeobjs t with
      | error e => exact Or.inr (Or.inl ⟨e, rfl, rfl⟩)
      | panic => exact absurd ho (treeobjs_ne_panic g t)
      | ok objs =>
        simp only []
        cases findSubtree c objs with
        | none => exact Or.inr (Or.inr ⟨c, rfl, rfl⟩)
        | some id => exact ih id

theorem treelisting_of_components (gfs g : gitfs) (t p : GoString) :
    gfs.treelisting g t p =
      match treelistingLoop g p (components p) t with
      | .error e => .error e
      | .panic => .panic
      | .ok actualtree =>
        match gfs.treeobjs actualtree with
        | .error _ => .error (.missingTree actualtree)
        | .panic => .panic
        | .ok objs => .ok (objs.map fun o => { Name := o.data, Typ := direntType o.mode }) := by
  unfold gitfs.treelisting components
  rw [treelistingLoop_filter g p (Split SLASH p) t]

/-- C17 (amended).  For every backend and tree `t`, two paths `p` and `q` with
the same non-empty slash-separated components both succeed with the same
entries, or both fail with the same error, or both fail with "Missing subtree"
for the same component, an error that quotes the path as it was given and so
differs between `p` and `q`; and a path without a non-empty component resolves
to `t` itself, so that the listing is that of `t`. -/
theorem treelisting_components (gfs g : gitfs) (t p q : GoString) :
    (components p = components q →
      sameUpToPath p q (gfs.treelisting g t p) (gfs.treelisting g t q)) ∧
    (components p = [] →
      (∀ objs, gfs.treeobjs t = .ok objs →
        gfs.treelisting g t p =
          .ok (objs.map fun o => { Name := o.data, Typ := presentation o.mode })) ∧
      (∀ e, gfs.treeobjs t = .error e → gfs.treelisting g t p = .error (.missingTree t))) := by
  constructor
  · intro h
    rw [treelisting_of_components gfs g t p, treelisting_of_components gfs g t q, ← h]
    rcases treelistingLoop_sameUpToPath g p q (components p) t with
      ⟨a, h1, h2⟩ | ⟨e, h1, h2⟩ | ⟨c, h1, h2⟩
    · rw [h1, h2]
      simp only []
      cases ho : gfs.treeobjs a with
      | error e => exact Or.inr (Or.inl ⟨_, rfl, rfl⟩)
      | panic => exact absurd ho (treeobjs_ne_panic gfs a)
      | ok objs => exact Or.inl ⟨_, rfl, rfl⟩
    · rw [h1, h2]
      exact Or.inr (Or.inl ⟨e, rfl, rfl⟩)
    · rw [h1, h2]
      exact Or.inr (Or.inr ⟨c, rfl, rfl⟩)
  · intro h
    rw [treelisting_of_components gfs g t p, h]
    simp only [treelistingLoop]
    constructor
    · intro objs ho
      simp only [ho, direntType_eq_presentation]
    · intro e ho
      simp only [ho]

/-- Counterexample to C17 as stated: the paths `"x"` and `"/x"` have the same
non-empty components, and on the tree `aa…a` of the example backend, which has
no subtree `x`, `treelisting` returns two different errors, each quoting its
own path. -/
theorem treelisting_error_quotes_path :
    components [120] = components [47, 120] ∧
    exampleBackend.treelisting exampleBackend exampleId [120] =
      .error (.missingSubtree [120] [120]) ∧
    exampleBackend.treelisting exampleBackend exampleId [47, 120] =
      .error (.missingSubtree [120] [47, 120]) ∧
    exampleBackend.treelisting exampleBackend exampleId [120] ≠
      exampleBackend.treelisting exampleBackend exampleId [47, 120] := by
  decide

/-- Witness of C17 (amended) on the first example backend: the paths `"a/b"` and
`"/a//b/"` have the same components and give the same listing; the path `"//"`
has none and gives the listing of the starting tree `cc…c`. -/
theorem treelisting_components_witness :
    sameUpToPath [97, 47, 98] [47, 97, 47, 47, 98, 47]
      (exampleBackend.treelisting exampleBackend exampleId [97, 47, 98])
      (exampleBackend.treelisting exampleBackend exampleId [47, 97, 47, 47, 98, 47]) ∧
    exampleBackend.treelisting exampleBackend exampleId3 [47, 47] =
      .ok [{ Name := [103], Typ := .DT_File }] :=
  ⟨(treelisting_components exampleBackend exampleBackend exampleId [97, 47, 98]
      [47, 97, 47, 47, 98, 47]).1 (by decide),
    ((treelisting_components exampleBackend exampleBackend exampleId3 [47, 47] []).2
      (by decide)).1
      [{ kind := gitblob, id := exampleId, tree := [], mode := 0o100644, data := [103] }]
      (by decide)⟩

theorem headerError_none_id (parts : List GoString) (h : headerError parts = none) :
    (parts.getD 0 []).length = 40 := by
  unfold headerError at h
  repeat' split at h
  all_goals first
    | (simp at h; done)
    | (rename_i h1 _
       by_contra hc
       exact h1 hc)

theorem parserevlistLoop_ids (spare : List Byte) :
    ∀ (fuel : Nat) (data : List Byte) (objs res : List gitobj),
      parserevlistLoop spare fuel data objs = some (.ok res) →
      (∀ o ∈ objs, o.id.length = 40) → ∀ o ∈ res, o.id.length = 40
  | 0, _, _, _, h, _ => by simp [parserevlistLoop] at h
  | fuel + 1, data, objs, res, h, hobjs => by
    rw [parserevlistLoop] at h
    dsimp only at h
    repeat' split at h
    all_goals first
      | (simp only [Option.some.injEq, Outcome.ok.injEq] at h
         subst h
         exact hobjs)
      | (simp at h; done)
      | (refine parserevlistLoop_ids spare fuel _ _ res h ?_
         intro o ho
         simp only [List.mem_append, List.mem_singleton] at ho
         rcases ho with ho | rfl
         · exact hobjs o ho
         · exact headerError_none_id _ (by assumption))


theorem parserevlist_ids (info : Slice) (objs : List gitobj) (h : parserevlist info = .ok objs) :
    ∀ o ∈ objs, o.id.length = 40 := by
  unfold parserevlist at h
  cases hl : parserevlistLoop info.spare (info.elems.length + 1) info.elems [] with
  | none => simp [hl] at h
  | some r =>
    rw [hl] at h
    simp only [] at h
    subst h
    exact parserevlistLoop_ids _ _ _ [] objs hl (by simp)

/-- C19 (amended).  For every batch-listing buffer that `parserevlist`
accepts, the id of every record is 40 bytes long, so that the root `Lookup`
of every commit-id entry of the root listing yields a directory node; the tree
id of a record is the text after the key `"tree"`, whatever its length, and
the root `Lookup` of a tree-id entry yields a directory node when that name is
40 bytes long and fails with `ENOENT` when it is not. -/
theorem rootlisting_names (gfs : gitfs) (info : Slice) (objs : List gitobj)
    (h : parserevlist info = .ok objs) :
    ∀ o ∈ objs,
      { Name := o.id, Typ := .DT_Link } ∈ rootEntries objs ∧
      { Name := o.tree, Typ := .DT_Dir } ∈ rootEntries objs ∧
      o.id.length = 40 ∧
      gfs.Root.Lookup gfs o.id = .ok (.dir { tree := o.id, path := [] }) ∧
      (o.tree.length = 40 →
        gfs.Root.Lookup gfs o.tree = .ok (.dir { tree := o.tree, path := [] })) ∧
      (o.tree.length ≠ 40 → gfs.Root.Lookup gfs o.tree = .error .ENOENT) := by
  intro o ho
  have hid := parserevlist_ids info objs h o ho
  have hmem : ({ Name := o.id, Typ := .DT_Link } : Dirent) ∈ rootEntries objs ∧
      ({ Name := o.tree, Typ := .DT_Dir } : Dirent) ∈ rootEntries objs := by
    clear h hid
    induction objs with
    | nil => simp at ho
    | cons r rs ih =>
      simp only [List.mem_cons] at ho
      rcases ho with rfl | ho
      · simp [rootEntries]
      · have := ih ho
        simp [rootEntries, this.1, this.2]
  refine ⟨hmem.1, hmem.2, hid, ?_, ?_, ?_⟩
  · simp [dir.Lookup, gitfs.Root, hid]
  · intro ht
    simp [dir.Lookup, gitfs.Root, ht]
  · intro ht
    simp [dir.Lookup, gitfs.Root, ht]

/-- Witness of C19 (amended): the record `exampleRecord` with the commit id
`aa…a` and the tree id `T`. -/
theorem rootlisting_names_witness :
    exampleBackend2.Root.Lookup exampleBackend2 exampleId =
      .ok (.dir { tree := exampleId, path := [] }) ∧
    exampleBackend2.Root.Lookup exampleBackend2 [84] = .error .ENOENT :=
  ⟨(rootlisting_names exampleBackend2 ⟨exampleRecord.encode, [0, 0]⟩
      [{ kind := gitcommit, id := exampleId, tree := [84], mode := 0, data := [] }]
      (by decide) _ (List.mem_singleton.mpr rfl)).2.2.2.1,
    (rootlisting_names exampleBackend2 ⟨exampleRecord.encode, [0, 0]⟩
      [{ kind := gitcommit, id := exampleId, tree := [84], mode := 0, data := [] }]
      (by decide) _ (List.mem_singleton.mpr rfl)).2.2.2.2.2 (by decide)⟩

/-- Counterexample to C19 as stated: `parserevlist` accepts the record
`"aa…a commit 8\ntree T\n\n\n"`, whose tree id `T` is one byte long; the
root listing of the second example backend has the entry `T`, and the root
`Lookup` of `T` fails with `ENOENT`. -/
theorem rootlisting_name_not_found :
    parserevlist ⟨exampleRecord.encode, [0, 0]⟩ =
      .ok [{ kind := gitcommit, id := exampleId, tree := [84], mode := 0, data := [] }] ∧
    exampleBackend2.rootlisting =
      .ok [{ Name := exampleId, Typ := .DT_Link }, { Name := [84], Typ := .DT_Dir }] ∧
    exampleBackend2.Root.Lookup exampleBackend2 [84] = .error .ENOENT := by
  decide

theorem nodefor_dir (g : gitfs) (sha path name : GoString) (d1 : dir)
    (h : g.nodefor sha path name = .ok (.dir d1)) :
    d1 = { tree := sha, path := if path ≠ [] then path ++ SLASH :: name else name } := by
  unfold gitfs.nodefor at h
  dsimp only at h
  repeat' split at h
  all_goals first
    | (simp at h; done)
    | (simp only [Outcome.ok.injEq, Node.dir.injEq] at h
       subst h
       simp_all)

theorem Lookup_dir (gfs : gitfs) (d d1 : dir) (name : GoString) (hd : d.tree ≠ [])
    (h : d.Lookup gfs name = .ok (.dir d1)) :
    d1 = { tree := d.tree, path := if d.path ≠ [] then d.path ++ SLASH :: name else name } := by
  unfold dir.Lookup at h
  simp only [hd, if_false] at h
  split at h
  · rename_i node hn
    simp only [Outcome.ok.injEq] at h
    subst h
    exact nodefor_dir gfs d.tree d.path name d1 hn
  · simp at h
  · simp at h

theorem Lookup_root_dir (gfs : gitfs) (d1 : dir) (name : GoString)
    (h : gfs.Root.Lookup gfs name = .ok (.dir d1)) :
    name.length = 40 ∧ d1 = { tree := name, path := [] } := by
  unfold dir.Lookup gitfs.Root at h
  simp only [if_true, true_and] at h
  split at h
  · rename_i h40
    simp only [Outcome.ok.injEq, Node.dir.injEq] at h
    exact ⟨h40, h.symm⟩
  · simp at h

theorem lookupAll_nested (gfs : gitfs) (names : List GoString) (d d2 : dir) (hd : d.tree ≠ [])
    (h : lookupAll gfs d names = some d2) :
    d2.tree = d.tree ∧
    d2.path = names.foldl (fun p n => if p ≠ [] then p ++ SLASH :: n else n) d.path := by
  induction names generalizing d with
  | nil =>
    simp only [lookupAll, Option.some.injEq] at h
    subst h
    exact ⟨rfl, rfl⟩
  | cons n ns ih =>
    rw [lookupAll] at h
    split at h
    · rename_i d1 hl
      have h1 := Lookup_dir gfs d d1 n hd hl
      have hd1 : d1.tree ≠ [] := by rw [h1]; exact hd
      obtain ⟨ht, hp⟩ := ih d1 hd1 h
      rw [h1] at ht hp
      exact ⟨ht, by rw [hp, List.foldl_cons]⟩
    · simp at h

/-- C20.  Reachable-node invariant: every directory node `d` obtained from
`Root()` by a sequence `names` of successful `Lookup` calls, under any backend,
is either the root (no call, tree and path both empty) or has a tree of
exactly 40 bytes that is the name given to the first, root-level `Lookup`,
and as path the names of the nested calls joined by `"/"` (each nested
`Lookup` appends `"/name"`, and just `name` to the empty path); hence the tree
of `d` is empty or 40 bytes long, and `ReadDirAll` on `d` is `rootlisting` or
`treelisting`, never its final fall-through `ENOENT` branch. -/
theorem reachable_dir (gfs : gitfs) (names : List GoString) (d : dir)
    (h : lookupAll gfs gfs.Root names = some d) :
    ((names = [] ∧ d = { tree := [], path := [] }) ∨
      ∃ n rest, names = n :: rest ∧ n.length = 40 ∧ d.tree = n ∧ d.path = joinPath rest) ∧
    (d.tree = [] ∨ d.tree.length = 40) ∧
    d.ReadDirAll gfs =
      (if d.tree = [] then gfs.rootlisting else gfs.treelisting gfs d.tree d.path) := by
  have hshape : (names = [] ∧ d = { tree := [], path := [] }) ∨
      ∃ n rest, names = n :: rest ∧ n.length = 40 ∧ d.tree = n ∧ d.path = joinPath rest := by
    cases names with
    | nil =>
      simp only [lookupAll, Option.some.injEq] at h
      exact Or.inl ⟨rfl, h.symm⟩
    | cons n rest =>
      rw [lookupAll] at h
      split at h
      · rename_i d1 hl
        obtain ⟨h40, hd1⟩ := Lookup_root_dir gfs d1 n hl
        have hne : d1.tree ≠ [] := by
          rw [hd1]
          intro h0
          simp only at h0
          rw [h0] at h40
          simp at h40
        obtain ⟨ht, hp⟩ := lookupAll_nested gfs rest d1 d hne h
        rw [hd1] at ht hp
        exact Or.inr ⟨n, rest, rfl, h40, ht, hp⟩
      · simp at h
  have htree : d.tree = [] ∨ d.tree.length = 40 := by
    rcases hshape with ⟨_, hd⟩ | ⟨n, rest, _, h40, ht, _⟩
    · exact Or.inl (by rw [hd])
    · exact Or.inr (by rw [ht]; exact h40)
  refine ⟨hshape, htree, ?_⟩
  unfold dir.ReadDirAll
  rcases htree with h0 | h0
  · simp [h0]
  · simp [h0]

/-- Witness of C20 on the second example backend: from the root, `Lookup` of
`aa…a` and then of `a` reaches the directory with tree `aa…a` and path `a`. -/
theorem reachable_dir_witness :
    ((([exampleId, [97]] : List GoString) = [] ∧
        ({ tree := exampleId, path := [97] } : dir) = { tree := [], path := [] }) ∨
      ∃ n rest, [exampleId, [97]] = n :: rest ∧ n.length = 40 ∧
        ({ tree := exampleId, path := [97] } : dir).tree = n ∧
        ({ tree := exampleId, path := [97] } : dir).path = joinPath rest) ∧
    dir.ReadDirAll exampleBackend2 { tree := exampleId, path := [97] } =
      .error (.missingTree exampleId2) :=
  ⟨(reachable_dir exampleBackend2 [exampleId, [97]] { tree := exampleId, path := [97] }
      (by decide)).1, by decide⟩

end GitFuseFS
